import Mathlib

/-!
Verification of the pyKomorebi documentation-to-code generator.

This file gives a shallow embedding, in Lean 4, of the parts of the
pyKomorebi sources that the specification claims talk about:

* `pyKomorebi/utils.py`            — line/token utilities,
* `pyKomorebi/model.py`            — the normalized command model,
* `pyKomorebi/factory/api_factory.py` — the help-text parser,
* `pyKomorebi/creator/code.py`     — the line-wrapping formatter,
* `pyKomorebi/generate.py`         — the generation driver,
* `pyKomorebi/creator/lisp/helper/list.py` — the nested-list builder.

Python strings are embedded as `List Char` (`Str`).  Python's regular
expressions are embedded as hand-rolled matchers that implement the
leftmost/greedy backtracking semantics of each concrete pattern used by
the sources.  Fallible Python code (exceptions) is embedded with
`Except`; unbounded recursion is embedded with explicit fuel.
-/

set_option maxHeartbeats 2000000
set_option maxRecDepth 4000

/-- Python strings, embedded as lists of characters. -/
abbrev Str := List Char

/-- Coerce a Lean string literal to the embedding type. -/
def str (s : String) : Str := s.data

/-- Python `str.strip()` whitespace (the ASCII part: space, tab, newline,
carriage return, vertical tab, form feed). -/
def isPySpace (c : Char) : Bool :=
  c = ' ' || c = '\t' || c = '\n' || c = '\r' || c = '\x0b' || c = '\x0c'

/-- Drop characters satisfying `p` from the left end. -/
def stripLeftBy (p : Char → Bool) (s : Str) : Str := s.dropWhile p

/-- Drop characters satisfying `p` from the right end. -/
def stripRightBy (p : Char → Bool) (s : Str) : Str := (s.reverse.dropWhile p).reverse

/-- Drop characters satisfying `p` from both ends. -/
def stripBy (p : Char → Bool) (s : Str) : Str := stripRightBy p (stripLeftBy p s)

/-- Python `s.strip()` (no argument): strip whitespace from both ends. -/
def pyStrip (s : Str) : Str := stripBy isPySpace s

/-- Python `s.lstrip()`. -/
def pyLStrip (s : Str) : Str := stripLeftBy isPySpace s

/-- Python `s.rstrip()`. -/
def pyRStrip (s : Str) : Str := stripRightBy isPySpace s

/-- Python `s.strip(chars)` with an explicit character set. -/
def pyStripChars (chars : Str) (s : Str) : Str := stripBy (fun c => chars.contains c) s

/-- Python `s.strip(strip_chars)` where `strip_chars : str | None`. -/
def pyStripOpt (sc : Option Str) (s : Str) : Str :=
  match sc with
  | none => pyStrip s
  | some cs => pyStripChars cs s

/-- Helper for `containsStr`: test `pat` at every suffix. -/
def containsStrAux (pat : Str) : Str → Bool
  | [] => pat.isPrefixOf []
  | s@(_ :: t) => pat.isPrefixOf s || containsStrAux pat t

/-- Python `pat in s` (substring test). -/
def containsStr (s pat : Str) : Bool := containsStrAux pat s

/-- Python `s.startswith(pat)`. -/
def startsWith (s pat : Str) : Bool := pat.isPrefixOf s

/-- Python `s.endswith(pat)`. -/
def endsWith (s pat : Str) : Bool := pat.isSuffixOf s

/-- Python `s.removeprefix(pat)`. -/
def removePfx (s pat : Str) : Str :=
  if pat.isPrefixOf s then s.drop pat.length else s

/-- Python `s.removesuffix(pat)`. -/
def removeSfx (s pat : Str) : Str :=
  if pat.isSuffixOf s then s.take (s.length - pat.length) else s

/-- Python `s.lower()` (ASCII part). -/
def pyLower (s : Str) : Str := s.map Char.toLower

/-- Python `''.ljust(n)` and friends: `n` spaces. -/
def spacesI (n : Int) : Str := List.replicate n.toNat ' '

/-- Python `s.ljust(w)`. -/
def ljust (s : Str) (w : Int) : Str :=
  if (s.length : Int) < w then s ++ List.replicate (w - s.length).toNat ' ' else s

/-- Python `s * n` for strings (negative `n` gives the empty string). -/
def repeatStr (s : Str) (n : Int) : Str := (List.replicate n.toNat s).flatten

/-- Helper for `splitSep`: fuel-bounded scan. -/
def splitSepAux (sep : Str) : Nat → Str → Str → List Str
  | 0, acc, rest => [acc.reverse ++ rest]
  | n + 1, acc, rest =>
    if sep.isPrefixOf rest ∧ sep ≠ [] then
      acc.reverse :: splitSepAux sep n [] (rest.drop sep.length)
    else
      match rest with
      | [] => [acc.reverse]
      | c :: t => splitSepAux sep n (c :: acc) t

/-- Python `s.split(sep)` for a non-empty separator: splits at every
occurrence, keeping empty pieces (`"a,,b".split(",") == ["a","","b"]`). -/
def splitSep (sep : Str) (s : Str) : List Str := splitSepAux sep (s.length + 1) [] s

/-- Line-boundary characters of Python `str.splitlines` (ASCII and
Unicode line separators). -/
def isLineBoundary (c : Char) : Bool :=
  c = '\n' || c = '\r' || c = '\x0b' || c = '\x0c' || c = '\x1c' || c = '\x1d' ||
  c = '\x1e' || c.toNat = 0x85 || c.toNat = 0x2028 || c.toNat = 0x2029

/-- Helper for `splitlines`: fuel-bounded scan; `\r\n` counts as one
boundary; no trailing empty line is produced. -/
def splitlinesAux : Nat → Str → Str → List Str
  | 0, acc, rest => if acc = [] ∧ rest = [] then [] else [acc.reverse ++ rest]
  | n + 1, acc, rest =>
    match rest with
    | [] => if acc = [] then [] else [acc.reverse]
    | '\r' :: '\n' :: t => acc.reverse :: splitlinesAux n [] t
    | c :: t =>
      if isLineBoundary c then acc.reverse :: splitlinesAux n [] t
      else splitlinesAux n (c :: acc) t

/-- Python `s.splitlines(keepends=False)`. -/
def splitlines (s : Str) : List Str := splitlinesAux (s.length + 1) [] s

/-- Helper for `replaceAll`: fuel-bounded scan (the pattern is non-empty). -/
def replaceAllAux (old new : Str) : Nat → Str → Str
  | 0, s => s
  | n + 1, s =>
    if old.isPrefixOf s then new ++ replaceAllAux old new n (s.drop old.length)
    else
      match s with
      | [] => []
      | c :: t => c :: replaceAllAux old new n t

/-- Python `s.replace(old, new)`: replaces all non-overlapping occurrences
left to right; with an empty pattern Python interleaves `new` around every
character. -/
def replaceAll (s old new : Str) : Str :=
  if old = [] then new ++ s.flatMap (fun c => c :: new)
  else replaceAllAux old new (s.length + 1) s

/-- Helper for `findStrFrom`. -/
def findStrAux (pat : Str) : Str → Int → Int
  | u, i => if pat.isPrefixOf u then i else
    match u with
    | [] => -1
    | _ :: t => findStrAux pat t (i + 1)

/-- Python `s.find(pat, start)` (non-negative `start`): lowest index `≥ start`
where `pat` occurs, else `-1`. -/
def findStrFrom (s pat : Str) (start : Nat) : Int :=
  if start > s.length then -1 else findStrAux pat (s.drop start) start

/-- Python `s.find(pat)`. -/
def findStr (s pat : Str) : Int := findStrFrom s pat 0

/-- Helper for `rfindStr`. -/
def rfindStrAux (pat : Str) : Str → Int → Int → Int
  | u, i, best =>
    let best' := if pat.isPrefixOf u then i else best
    match u with
    | [] => best'
    | _ :: t => rfindStrAux pat t (i + 1) best'

/-- Python `s.rfind(pat)`: highest index where `pat` occurs, else `-1`. -/
def rfindStr (s pat : Str) : Int := rfindStrAux pat s 0 (-1)

/-- Python `s.count(c)` for a single-character pattern (the only form the
sources use); occurrences of a single character never overlap. -/
def countChar (s : Str) (c : Char) : Nat := (s.filter (fun x => x = c)).length

/-- Index of the last occurrence of character `c`, as `Option Nat`. -/
def lastIndexOfChar (s : Str) (c : Char) : Option Nat :=
  match s with
  | [] => none
  | x :: t =>
    match lastIndexOfChar t c with
    | some i => some (i + 1)
    | none => if x = c then some 0 else none

/-- Split at the first occurrence of character `c`: `(before, after)`. -/
def splitAtFirstCh (c : Char) : Str → Option (Str × Str)
  | [] => none
  | x :: t =>
    if x = c then some ([], t)
    else (splitAtFirstCh c t).map (fun p => (x :: p.1, p.2))

/-! ## `pyKomorebi/utils.py` -/

/-- `utils.strip_value(value, strip_chars)`: `None` becomes the empty
string, otherwise `str(value).strip(strip_chars)`. -/
def stripValue (v : Option Str) (sc : Option Str) : Str :=
  match v with
  | none => []
  | some s => pyStripOpt sc s

/-- `utils.is_not_blank(line, strip_chars)` for a string argument: strip
only when `strip_chars` is given, then test non-emptiness. -/
def isNotBlankS (l : Str) (sc : Option Str) : Bool :=
  match sc with
  | none => l.length > 0
  | some cs => (pyStripChars cs l).length > 0

/-- `utils.strip_lines(*line, strip_chars)` restricted to string inputs:
with `strip_chars=None` it filters blank lines (without stripping),
otherwise it strips every line with the given characters. -/
def stripLines (lines : List Str) (sc : Option Str) : List Str :=
  match sc with
  | none => lines.filter (fun l => l.length > 0)
  | some cs => lines.map (fun l => pyStripChars cs l)

/-- `utils.strip_and_clean_blank(*text, strip_chars)`. -/
def stripAndCleanBlank (lines : List Str) (sc : Option Str) : List Str :=
  (stripLines lines sc).filter (fun l => isNotBlankS l sc)

/-- `utils.clean_blank(*text, strip_chars)`. -/
def cleanBlank (lines : List Str) (sc : Option Str) : List Str :=
  lines.filter (fun l => isNotBlankS l sc)

/-- `utils.as_string(*values, separator)`: a single value is returned
as-is; otherwise the non-empty values are joined with the separator. -/
def asString (values : List Str) (sep : Str) : Str :=
  match values with
  | [] => []
  | [v] => v
  | _ => List.intercalate sep (values.filter (fun v => v.length > 0))

/-- `utils.lines_as_str(*values)`. -/
def linesAsStr (values : List Str) : Str := asString values (str "\n")

/-! ## `pyKomorebi/model.py`

The dataclasses of `model.py`.  Every dataclass runs `__post_init__` at
construction; the `mk…` functions below embed constructor calls (the
constructor argument types are the ones the factory call sites use).
The stored `name` attribute is set by `CommandBase.__post_init__` via
`_get_name()` before any further normalization, so it is computed from
the raw constructor arguments. -/

/-- `model.CommandConstant`. -/
structure CommandConstant where
  name : Str
  constant : Str
  description : List Str
deriving DecidableEq, Repr

/-- `model._value`: `None` for blank input, else the stripped string. -/
def pyValue (v : Str) : Option Str :=
  if (pyStrip v).length = 0 then none else some (pyStrip v)

/-- `model._value` on an optional input. -/
def pyValueOpt (v : Option Str) : Option Str :=
  match v with
  | none => none
  | some s => pyValue s

/-- Constructor call `CommandConstant(constant=…, description=…)`:
`__post_init__` cleans the description and sets `name = constant`. -/
def mkCommandConstant (description : List Str) (constant : Str) : CommandConstant :=
  { name := constant
    constant := constant
    description := stripAndCleanBlank description (some (str " ")) }

/-- `model.CommandOption`. -/
structure CommandOption where
  name : Str
  description : List Str
  default : Option Str
  possibleValues : List CommandConstant
  short : Option Str
  long : Option Str
  value : Option Str
deriving DecidableEq, Repr

/-- Constructor call `CommandOption(short=…, long=…, value=…,
description=…, default=…, possible_values=…)` with string arguments (as
the factory passes them): `__post_init__` sets
`name = long.removeprefix("--")` from the raw value (the raw `long` is a
string, never `None`, on this call shape), keeps the possible values
whose `name` is not `None` (always true), and normalizes
`short`/`long`/`value`/`default` with `_value`. -/
def mkCommandOption (description : List Str) (default : Str)
    (possible_values : List CommandConstant) (short long value : Str) : CommandOption :=
  { name := removePfx long (str "--")
    description := stripAndCleanBlank description (some (str " "))
    default := pyValue default
    possibleValues := possible_values.filter (fun _ => true)
    short := pyValue short
    long := pyValue long
    value := pyValue value }

/-- `model.CommandArgument`. -/
structure CommandArgument where
  name : Str
  description : List Str
  default : Option Str
  possibleValues : List CommandConstant
  argument : Str
  optional : Bool
deriving DecidableEq, Repr

/-- Constructor call `CommandArgument(argument=…, description=…,
default=…, possible_values=…, optional=…)` with a string `default`. -/
def mkCommandArgument (description : List Str) (default : Str)
    (possible_values : List CommandConstant) (argument : Str) (optional : Bool) :
    CommandArgument :=
  { name := argument
    description := stripAndCleanBlank description (some (str " "))
    default := pyValue default
    possibleValues := possible_values.filter (fun _ => true)
    argument := argument
    optional := optional }

/-- `model.ApiCommand`. -/
structure ApiCommand where
  name : Str
  description : List Str
  usage : Option Str
  arguments : List CommandArgument
  options : List CommandOption
deriving DecidableEq, Repr

/-- Constructor call `ApiCommand(name=…, description=…, usage=…,
arguments=…, options=…)`: `__post_init__` filters blank description
lines (with `strip_chars=None`, so without stripping) and normalizes
`usage` with `_value`. -/
def mkApiCommand (name : Str) (description : List Str) (usage : Option Str)
    (arguments : List CommandArgument) (options : List CommandOption) : ApiCommand :=
  { name := name
    description := stripAndCleanBlank description none
    usage := pyValueOpt usage
    arguments := arguments
    options := options }

/-- `CommandOption.is_help`. -/
def CommandOption.isHelp (o : CommandOption) : Bool :=
  o.long == some (str "--help") || o.short == some (str "-h")

/-- `ApiCommand.remove_help_option` (returning the updated command). -/
def ApiCommand.removeHelpOption (c : ApiCommand) : ApiCommand :=
  { c with options := c.options.filter (fun o => !o.isHelp) }

/-- Lexicographic `<` on Python strings (code-point order). -/
def strLt : Str → Str → Bool
  | _, [] => false
  | [], _ :: _ => true
  | a :: as_, b :: bs =>
    if a.toNat < b.toNat then true
    else if a.toNat = b.toNat then strLt as_ bs
    else false

/-- `ApiCommand.__eq__`, generated by `@dataclass`: only the fields with
`compare=True` participate, and `name` is the only such field. -/
def apiCommandEq (a b : ApiCommand) : Bool := a.name == b.name

/-- `ApiCommand.__lt__`, generated by `@dataclass(order=True)`: compares
the tuple of `compare=True` fields, i.e. `(self.name,) < (other.name,)`. -/
def apiCommandLt (a b : ApiCommand) : Bool := strLt a.name b.name

/-! ## Regular expressions of `pyKomorebi/factory/api_factory.py`

Each compiled pattern of the source is embedded as a hand-rolled matcher
implementing CPython's leftmost/greedy backtracking semantics for that
concrete pattern.  Since in every pattern each greedy repetition is
followed by a character it can never consume, maximal munch is exact. -/

/-- Python `\w` (ASCII part). -/
def isWordChar (c : Char) : Bool := c.isAlphanum || c = '_'

/-- The class `[a-zA-Z-_]` of `ARGS_PATTERN`. -/
def isArgNameChar (c : Char) : Bool := c.isAlpha || c = '-' || c = '_'

/-- The class `[A-Z-_]` of `ARGS_OPT_PATTERN`. -/
def isOptNameChar (c : Char) : Bool :=
  (0x41 ≤ c.toNat ∧ c.toNat ≤ 0x5a) || c = '-' || c = '_'

/-- The class `[\w-]` of `OPTION_PATTERN`'s long-name group. -/
def isLongNameChar (c : Char) : Bool := isWordChar c || c = '-'

/-- The class `[-\w\s]` of `ENUM_PATTERN`. -/
def isEnumClassChar (c : Char) : Bool := c = '-' || isWordChar c || isPySpace c

/-- `ARGS_PATTERN.match(line)` for
`\s*(?P<name><[a-zA-Z-_]+>)(?P<rest>.*)?`: returns `(name, rest)`.
`rest` stops at a newline (`.` without `DOTALL`); `(.*)?` always captures
at least the empty string, so `rest` is present whenever the match is. -/
def argsMatch (line : Str) : Option (Str × Str) :=
  match line.dropWhile isPySpace with
  | '<' :: t =>
    let body := t.takeWhile isArgNameChar
    if body = [] then none
    else
      match t.dropWhile isArgNameChar with
      | '>' :: r => some ('<' :: body ++ ['>'], r.takeWhile (fun c => c ≠ '\n'))
      | _ => none
  | _ => none

/-- `ARGS_OPT_PATTERN.match(line)` for
`\s*(?P<name>\[[A-Z-_]+\])(?P<optional>[\.]*)?(?P<rest>.*)?`:
returns `(name, optional, rest)`; the `optional` group always captures
(possibly the empty string). -/
def argsOptMatch (line : Str) : Option (Str × Str × Str) :=
  match line.dropWhile isPySpace with
  | '[' :: t =>
    let body := t.takeWhile isOptNameChar
    if body = [] then none
    else
      match t.dropWhile isOptNameChar with
      | ']' :: r =>
        let dots := r.takeWhile (fun c => c = '.')
        let r2 := r.dropWhile (fun c => c = '.')
        some ('[' :: body ++ [']'], dots, r2.takeWhile (fun c => c ≠ '\n'))
      | _ => none
  | _ => none

/-- The four groups of `OPTION_PATTERN`. -/
structure OptionMatch where
  short : Option Str
  name : Option Str
  arg : Option Str
  description : Str
deriving DecidableEq, Repr

/-- The optional group `(?P<short>-\w+)?` tried at `s1`: on failure the
position stays at `s1`. -/
def optShortStep (s1 : Str) : Option Str × Str :=
  match s1 with
  | '-' :: t =>
    let w := t.takeWhile isWordChar
    if w = [] then (none, s1) else (some ('-' :: w), t.dropWhile isWordChar)
  | _ => (none, s1)

/-- The optional group `(?:[,\s]*(?P<name>--[\w-]+))?` tried at `s2`: a
failure resets the position to before the group's `[,\s]*` prefix. -/
def optLongStep (s2 : Str) : Option Str × Str :=
  match s2.dropWhile (fun c => c = ',' || isPySpace c) with
  | '-' :: '-' :: t =>
    let w := t.takeWhile isLongNameChar
    if w = [] then (none, s2)
    else (some ('-' :: '-' :: w), t.dropWhile isLongNameChar)
  | _ => (none, s2)

/-- The optional group `(?P<arg><.*>)?` tried at `s4`: greedy `.*` stays
on the line and backtracks to the last `>`. -/
def optArgStep (s4 : Str) : Option Str × Str :=
  match s4 with
  | '<' :: t =>
    let tLine := t.takeWhile (fun c => c ≠ '\n')
    match lastIndexOfChar tLine '>' with
    | some i => (some ('<' :: tLine.take i ++ ['>']), t.drop (i + 1))
    | none => (none, s4)
  | _ => (none, s4)

/-- `OPTION_PATTERN.match(line)` for
`\s*(?P<short>-\w+)?(?:[,\s]*(?P<name>--[\w-]+))?\s*(?P<arg><.*>)?(?P<description>.*)`.
Every element is optional and the pattern ends in `.*`, so the match
always succeeds. -/
def optionMatch (line : Str) : OptionMatch :=
  let shortRes := optShortStep (line.dropWhile isPySpace)
  let longRes := optLongStep shortRes.2
  let argRes := optArgStep (longRes.2.dropWhile isPySpace)
  { short := shortRes.1
    name := longRes.1
    arg := argRes.1
    description := argRes.2.takeWhile (fun c => c ≠ '\n') }

/-- `DEFAULT_PATTERN` tried at one position:
`\[default:\s*(?P<default>\w*)\]` with greedy, non-overlapping classes. -/
def defaultMatchAt (s : Str) : Option (Str × Str) :=
  if (str "[default:").isPrefixOf s then
    let t := s.drop 9
    let sp := t.takeWhile isPySpace
    let t2 := t.dropWhile isPySpace
    let w := t2.takeWhile isWordChar
    match t2.dropWhile isWordChar with
    | ']' :: _ => some (str "[default:" ++ sp ++ w ++ [']'], w)
    | _ => none
  else none

/-- Scan for the rightmost position where `f` matches, as the greedy
leading `.*` (with `DOTALL`) of `DEFAULT_PATTERN`/`CONSTANTS_PATTERN`
does. -/
def scanLastMatch {α : Type} (f : Str → Option α) : Str → Option α
  | [] => f []
  | s@(_ :: t) =>
    match scanLastMatch f t with
    | some r => some r
    | none => f s

/-- `DEFAULT_PATTERN.match(doc_string)` for
`.*(?P<complete>\[default:\s*(?P<default>\w*)\])` with `DOTALL`:
returns `(complete, default)` for the rightmost matching bracket. -/
def defaultMatch (s : Str) : Option (Str × Str) := scanLastMatch defaultMatchAt s

/-- `CONSTANTS_PATTERN` tried at one position:
`\[possible\s*values:\s*(?P<values>.*)\].*` with `DOTALL`; the greedy
`values` group runs to the last `]` of the suffix and the trailing `.*`
makes the `complete` group span to the end of the string. -/
def constantsMatchAt (s : Str) : Option (Str × Str) :=
  if (str "[possible").isPrefixOf s then
    let t := (s.drop 9).dropWhile isPySpace
    if (str "values:").isPrefixOf t then
      let u := t.drop 7
      match lastIndexOfChar u ']' with
      | some i => some (s, u.take i)
      | none => none
    else none
  else none

/-- `CONSTANTS_PATTERN.match(doc_string)` for
`.*(?P<complete>\[possible\s*values:\s*(?P<values>.*)\].*)` with
`DOTALL`: `(complete, values)` at the rightmost matching position. -/
def constantsMatch (s : Str) : Option (Str × Str) := scanLastMatch constantsMatchAt s

/-- `ENUM_PATTERN.match(text)` for `(?P<name>\s*-\s?[-\w\s]*:)`:
returns `(name, rest_after_colon)`; the `\s?` is absorbed by the
following class `[-\w\s]*`, whose maximal run must be terminated by a
colon. -/
def enumMatchAt (s : Str) : Option (Str × Str) :=
  let sp := s.takeWhile isPySpace
  match s.dropWhile isPySpace with
  | '-' :: t =>
    let body := t.takeWhile isEnumClassChar
    match t.dropWhile isEnumClassChar with
    | ':' :: r => some (sp ++ '-' :: body ++ [':'], r)
    | _ => none
  | _ => none

/-- `re.split` scanning for `ENUM_PATTERN`: the leftmost position where
the anchored match succeeds, returning `(before, name, after)`. -/
def enumSearchAux : Str → Str → Option (Str × Str × Str)
  | pre, [] =>
    match enumMatchAt [] with
    | some r => some (pre.reverse, r.1, r.2)
    | none => none
  | pre, s@(c :: t) =>
    match enumMatchAt s with
    | some r => some (pre.reverse, r.1, r.2)
    | none => enumSearchAux (c :: pre) t

/-- `ENUM_PATTERN.split(text, maxsplit=1)`: with the whole pattern being
one capturing group this yields `[before, name, after]`. -/
def enumSearch (s : Str) : Option (Str × Str × Str) := enumSearchAux [] s

/-! ## `pyKomorebi/factory/api_factory.py` -/

/-- Python exceptions raised (or modelled) by the embedded code. -/
inductive PyErr where
  | typeError
  | indexError
  | valueError
  | exception (msg : Str)
deriving DecidableEq, Repr

/-- `api_factory.find_line(lines, search, lower_case)`: index and line of
the first line containing `search` (searching the lowered line when
`lower_case`, but returning the original), `(-1, None)` if absent. -/
def findLineAux (search : Str) (lowerCase : Bool) : List Str → Int → Int × Option Str
  | [], _ => (-1, none)
  | l :: t, i =>
    let sv := if lowerCase then pyLower l else l
    if containsStr sv search then (i, some l) else findLineAux search lowerCase t (i + 1)

/-- `api_factory.find_line` (wrapper starting at index 0). -/
def findLine (lines : List Str) (search : Str) (lowerCase : Bool) : Int × Option Str :=
  findLineAux search lowerCase lines 0

/-- `api_factory._create_usage`. -/
def createUsage (lines : List Str) : Option Str :=
  match findLine lines (str "Usage:") false with
  | (idx, some line) =>
    if idx < 0 then none else some (pyStrip (replaceAll line (str "Usage:") []))
  | (_, none) => none

/-- `api_factory._create_function_doc`.  The Python function receives the
caller's list and calls `lines.pop(idx)` on it; when the section index is
positive the list was first rebound to a copy (`lines[:idx]`), otherwise
the pop mutates the caller's list.  The embedding returns the pair
`(result, caller's list after the call)`. -/
def createFunctionDoc (lines : List Str) : List Str × List Str :=
  let f1 := findLine lines (str "Arguments:") false
  let f2 := if f1.1 < 0 ∨ f1.2 = none then findLine lines (str "Options:") false else f1
  let truncated := f2.1 > 0
  let lines1 := if truncated then lines.take f2.1.toNat else lines
  let f3 := findLine lines1 (str "Usage:") false
  let lines2 :=
    if f3.1 > 0 ∧ f3.2 ≠ none then lines1.eraseIdx f3.1.toNat else lines1
  (lines2, if truncated then lines else lines2)

/-- `api_factory._get_lines(doc_lines, current, other)`. -/
def getLines (docLines : List Str) (current other : Str) : List Str :=
  match findLine docLines current false with
  | (idx, some _) =>
    if idx < 0 then []
    else
      let lines := docLines.drop idx.toNat
      let argIdx := (findLine lines other false).1
      if argIdx > 0 then lines.take argIdx.toNat else lines
  | (_, none) => []

/-- `api_factory._match_any_value` on a single matched group: the group
is present and non-blank after stripping. -/
def groupNonBlank (g : Option Str) : Bool :=
  match g with
  | none => false
  | some v => (pyStrip v).length > 0

/-- Item-header test for options: `_match_pattern` with `OPTION_PATTERN`
(which always matches) and `_match_any_value(match, "short", "name")`. -/
def isOptionHeader (line : Str) : Bool :=
  let m := optionMatch line
  groupNonBlank m.short || groupNonBlank m.name

/-- Item-header test for arguments: `_match_pattern` with
`[ARGS_PATTERN, ARGS_OPT_PATTERN]` (first match wins) and
`_match_any_value(match, "name")`. -/
def isArgsHeader (line : Str) : Bool :=
  match argsMatch line with
  | some (nm, _) => (pyStrip nm).length > 0
  | none =>
    match argsOptMatch line with
    | some (nm, _, _) => (pyStrip nm).length > 0
    | none => false

/-- `api_factory._get_indexes`: indexes of the item-header lines, with
`len(lines)` appended. -/
def getIndexes (lines : List Str) (p : Str → Bool) : List Nat :=
  (List.range lines.length).filter (fun i => p (lines.getD i [])) ++ [lines.length]

/-- `itertools.pairwise`. -/
def pairwise (l : List Nat) : List (Nat × Nat) := l.zip l.tail

/-- `api_factory._get_default_value`. -/
def getDefaultValue (s : Str) : Str × Option Str :=
  match defaultMatch s with
  | none => (s, none)
  | some (complete, dflt) => (pyStrip (replaceAll s complete []), some dflt)

/-- `api_factory.split_constant_string(text, strip_char)`. -/
def splitConstantString (text : Str) (stripChar : Str) : Str × List Str :=
  match enumMatchAt text with
  | none => (pyStripChars stripChar text, [])
  | some _ =>
    match enumSearch text with
    | none => (pyStripChars stripChar text, [])
    | some (before, nm, after) =>
      let values := stripAndCleanBlank [before, nm, after] (some stripChar)
      match values with
      | [] => (pyStripChars stripChar text, [])
      | v0 :: vrest =>
        (pyStrip (removeSfx (removePfx v0 (str "-")) (str ":")),
          stripAndCleanBlank vrest (some stripChar))

/-- `api_factory.constant_from_lines`. -/
def constantFromLines (lines : List Str) : List CommandConstant :=
  lines.map (fun value =>
    let nd := splitConstantString value (str " ")
    mkCommandConstant nd.2 (pyStrip nd.1))

/-- `"\n".join(lines)`. -/
def joinNl (lines : List Str) : Str := List.intercalate (str "\n") lines

/-- `api_factory._get_constants_regex`. -/
def getConstantsRegex (s : Str) : Str × List CommandConstant :=
  match constantsMatch s with
  | none => (s, [])
  | some (complete, values) =>
    let vals := stripLines (splitSep (str ",") values) (some (str " "))
    (pyStrip (replaceAll s complete []), constantFromLines vals)

/-- `api_factory._get_constants_startswith`. -/
def getConstantsStartswith (s : Str) : Str × List CommandConstant :=
  let docLines := stripAndCleanBlank (splitlines s) (some (str " "))
  match findLine docLines (str "possible values:") true with
  | (idx, some _) =>
    if idx < 0 then (s, [])
    else
      let values :=
        (docLines.drop (idx.toNat + 1)).filter (fun v => startsWith (pyStrip v) (str "-"))
      (joinNl (docLines.take idx.toNat), constantFromLines (stripLines values none))
  | (_, none) => (s, [])

/-- `api_factory._get_constants`: the bracket form wins; the line-prefix
fallback runs only when the bracket form yields no values. -/
def getConstants (s : Str) : Str × List CommandConstant :=
  let r := getConstantsRegex s
  if r.2.length = 0 then getConstantsStartswith r.1 else r

/-- `api_factory._docs_default_and_constants`. -/
def docsDefaultAndConstants (docLines : List Str) (stripChar : Str) :
    List Str × Option Str × List CommandConstant :=
  let s := joinNl (cleanBlank docLines none)
  let r1 := getDefaultValue s
  let r2 := getConstants r1.1
  (stripAndCleanBlank (splitlines r2.1) (some stripChar), r1.2, r2.2)

/-- `api_factory._get_option_short_and_name`.  `OPTION_PATTERN.match`
never returns `None` (every element of the pattern is optional and it
ends in `.*`), so the `raise` branch is dead code and the embedding is
total. -/
def getOptionShortAndName (line : Str) :
    Except PyErr (Option Str × Option Str × Option Str × Str) :=
  let m := optionMatch line
  Except.ok (m.short, m.name, m.arg, m.description)

/-- `api_factory._get_argument_name`: tries `ARGS_PATTERN`, then
`ARGS_OPT_PATTERN` (with `optional = not rest.startswith("...")` since
the `optional` group always captures), and raises when neither pattern
matches. -/
def getArgumentName (line : Str) : Except PyErr (Str × Bool × Str) :=
  match argsMatch line with
  | some (nm, rest) => Except.ok (nm, false, rest)
  | none =>
    match argsOptMatch line with
    | some (nm, optGrp, rest) =>
      Except.ok (nm, !(startsWith optGrp (str "...")), rest)
    | none => Except.error (PyErr.exception (str "No ARGUMENT name found in line"))

/-- Monadic accumulation of the factory's per-item `for` loops: each item
is translated in order and a raised exception propagates. -/
def mapExcept {α β ε : Type} (f : α → Except ε β) : List α → Except ε (List β)
  | [] => Except.ok []
  | a :: t => do
    let b ← f a
    let r ← mapExcept f t
    Except.ok (b :: r)

/-- `api_factory._create_options`, parametrized by the embedding of the
constructor call
`CommandOption(short=…, long=…, value=…, description=…, default=…, constants=…)`
(the arguments below are passed in that order of meaning: description,
default, constants, short, long, value). -/
def createOptionsWith
    (mk : List Str → Str → List CommandConstant → Str → Str → Str →
      Except PyErr CommandOption)
    (docLines : List Str) (stripChar : Str) : Except PyErr (List CommandOption) :=
  let optionLines := getLines docLines (str "Options:") (str "Arguments:")
  let idxs := getIndexes optionLines isOptionHeader
  mapExcept (fun se => do
    let (short, long, argValue, desc) ← getOptionShortAndName (optionLines.getD se.1 [])
    let body := (optionLines.drop (se.1 + 1)).take (se.2 - (se.1 + 1))
    let body := if isNotBlankS desc none then desc :: body else body
    let r := docsDefaultAndConstants body stripChar
    mk (stripAndCleanBlank r.1 (some stripChar)) (stripValue r.2.1 (some stripChar))
      r.2.2 (stripValue short (some stripChar)) (stripValue long (some stripChar))
      (stripValue argValue (some stripChar)))
    (pairwise idxs)

/-- `api_factory._create_arguments`, parametrized by the embedding of the
constructor call `CommandArgument(argument=…, description=…, default=…,
constants=…, optional=…)` (argument order of the parameter: description,
default, constants, argument, optional). -/
def createArgumentsWith
    (mk : List Str → Str → List CommandConstant → Str → Bool →
      Except PyErr CommandArgument)
    (docLines : List Str) (stripChar : Str) : Except PyErr (List CommandArgument) :=
  let argsLines := getLines docLines (str "Arguments:") (str "Options:")
  let idxs := getIndexes argsLines isArgsHeader
  mapExcept (fun se => do
    let (nm, opt, rest) ← getArgumentName (argsLines.getD se.1 [])
    let body := (argsLines.drop (se.1 + 1)).take (se.2 - (se.1 + 1))
    let body := if isNotBlankS rest none then rest :: body else body
    let r := docsDefaultAndConstants body stripChar
    mk (stripAndCleanBlank r.1 (some stripChar)) (stripValue r.2.1 (some stripChar))
      r.2.2 (stripValue (some nm) (some stripChar)) opt)
    (pairwise idxs)

/-- The constructor call as written in `_create_options`: it passes the
keyword argument `constants=…`, but the dataclass field of
`model.CommandArgs` is named `possible_values`, so CPython raises
`TypeError: __init__() got an unexpected keyword argument 'constants'`. -/
def mkOptionKwAsWritten : List Str → Str → List CommandConstant → Str → Str → Str →
    Except PyErr CommandOption :=
  fun _ _ _ _ _ _ => Except.error PyErr.typeError

/-- The constructor call as written in `_create_arguments`: same
`constants=` keyword mismatch, same `TypeError`. -/
def mkArgumentKwAsWritten : List Str → Str → List CommandConstant → Str → Bool →
    Except PyErr CommandArgument :=
  fun _ _ _ _ _ => Except.error PyErr.typeError

/-- The evidently intended constructor call, binding the parsed constants
to the dataclass field `possible_values`. -/
def mkOptionIntended : List Str → Str → List CommandConstant → Str → Str → Str →
    Except PyErr CommandOption :=
  fun d df cs s l v => Except.ok (mkCommandOption d df cs s l v)

/-- The evidently intended `CommandArgument` constructor call. -/
def mkArgumentIntended : List Str → Str → List CommandConstant → Str → Bool →
    Except PyErr CommandArgument :=
  fun d df cs a o => Except.ok (mkCommandArgument d df cs a o)

/-- `_create_options` exactly as written (raises `TypeError` as soon as
one option item exists). -/
def createOptions (docLines : List Str) (stripChar : Str) :
    Except PyErr (List CommandOption) :=
  createOptionsWith mkOptionKwAsWritten docLines stripChar

/-- `_create_options` with the intended constructor binding. -/
def createOptionsIntended (docLines : List Str) (stripChar : Str) :
    Except PyErr (List CommandOption) :=
  createOptionsWith mkOptionIntended docLines stripChar

/-- `_create_arguments` exactly as written. -/
def createArguments (docLines : List Str) (stripChar : Str) :
    Except PyErr (List CommandArgument) :=
  createArgumentsWith mkArgumentKwAsWritten docLines stripChar

/-- `_create_arguments` with the intended constructor binding. -/
def createArgumentsIntended (docLines : List Str) (stripChar : Str) :
    Except PyErr (List CommandArgument) :=
  createArgumentsWith mkArgumentIntended docLines stripChar

/-- Match at one position of `CLEANUP_PATTERN`'s single regex
`(\s*\(without.*?\))` with `DOTALL`: greedy `\s*`, literal `(without`,
lazy `.*?` up to the first closing parenthesis. -/
def withoutMatchAt (s : Str) : Option (Str × Str) :=
  let sp := s.takeWhile isPySpace
  let rest := s.dropWhile isPySpace
  if (str "(without").isPrefixOf rest then
    match splitAtFirstCh ')' (rest.drop 8) with
    | some (before, after) => some (sp ++ str "(without" ++ before ++ [')'], after)
    | none => none
  else none

/-- `re.findall` scan for `CLEANUP_PATTERN`: leftmost, non-overlapping
matches, resuming after each match. -/
def findallWithoutAux : Nat → Str → List Str
  | 0, _ => []
  | _ + 1, [] => []
  | n + 1, s@(_ :: t) =>
    match withoutMatchAt s with
    | some (m, after) => m :: findallWithoutAux n after
    | none => findallWithoutAux n t

/-- `re.findall(CLEANUP_PATTERN[0], line)` (the whole pattern is one
group, so the group list is the match list). -/
def findallWithout (s : Str) : List Str := findallWithoutAux s.length s

/-- `utils._clean_pattern_in(line, patterns)` for the factory's single
cleanup pattern: each found match string is replaced everywhere by a
space when it starts or ends with a space, else by nothing. -/
def cleanPatternLine (line : Str) : Str :=
  (findallWithout line).foldl
    (fun l m =>
      let rep := if startsWith m (str " ") || endsWith m (str " ") then str " " else []
      replaceAll l m rep)
    line

/-- `utils.clean_pattern_in(lines, CLEANUP_PATTERN)`: join with newlines,
clean, split on `"\n"`. -/
def cleanPatternIn (lines : List Str) : List Str :=
  splitSep (str "\n") (cleanPatternLine (linesAsStr lines))

/-- `api_factory.create_api_command(command_name, lines)`, parametrized
by the two constructor-call embeddings. -/
def createApiCommandWith
    (mkOpt : List Str → Str → List CommandConstant → Str → Str → Str →
      Except PyErr CommandOption)
    (mkArg : List Str → Str → List CommandConstant → Str → Bool →
      Except PyErr CommandArgument)
    (name : Str) (lines : List Str) : Except PyErr ApiCommand := do
  let lines1 := cleanPatternIn lines
  let fd := createFunctionDoc lines1
  let usage := createUsage fd.2
  let options ← createOptionsWith mkOpt fd.2 (str " ")
  let arguments ← createArgumentsWith mkArg fd.2 (str " ")
  Except.ok (mkApiCommand name fd.1 usage arguments options)

/-- `create_api_command` exactly as written: the `CommandOption`/
`CommandArgument` constructor calls pass the stale keyword `constants=`
and raise `TypeError` whenever an option or argument item exists. -/
def createApiCommand (name : Str) (lines : List Str) : Except PyErr ApiCommand :=
  createApiCommandWith mkOptionKwAsWritten mkArgumentKwAsWritten name lines

/-- `create_api_command` with the intended constructor bindings
(`constants` ↦ `possible_values`). -/
def createApiCommandIntended (name : Str) (lines : List Str) : Except PyErr ApiCommand :=
  createApiCommandWith mkOptionIntended mkArgumentIntended name lines

/-! ## `pyKomorebi/creator/code.py` — the line-wrapping formatter

`ACodeFormatter` is an abstract base class: `indent`, `max_length` and
`module_name` are constructor state, and `find_prefix_in_code` (with
`separator`, `concat_args`, …) is implemented per target language.  The
embedding therefore carries the abstract parts as fields of
`AFormatter`.  `FormatterArgs` is a `TypedDict` whose keys may be
absent: absent keys are `none` (`kw.get(k, d)` is `getD`).  The field
`pfx` embeds the Python key `"prefix"`. -/

/-- `code.FormatterArgs`. -/
structure FmtArgs where
  level : Option Int := none
  columns : Option Int := none
  suffix : Option Str := none
  defaultFormat : Option Str := none
  separator : Str
  isCode : Option Bool := none
  pfx : Option Int := none
deriving DecidableEq, Repr

/-- `ACodeFormatter`: constructor state plus the abstract method used by
`concat_values` (`find_prefix_in_code`). -/
structure AFormatter where
  indentStr : Str
  maxLength : Nat
  moduleName : Str
  findPrefixInCode : Str → FmtArgs → Int

/-- `ACodeFormatter.is_not_max_length`. -/
def AFormatter.isNotMaxLength (F : AFormatter) (line : Option Str) : Bool :=
  match line with
  | none => false
  | some l => l.length ≤ F.maxLength

/-- `ACodeFormatter.prefix_of`. -/
def AFormatter.prefixOf (_ : AFormatter) (line : Str) : Int :=
  (line.length : Int) - ((pyLStrip line).length : Int)

/-- `ACodeFormatter.column_prefix`. -/
def AFormatter.columnPfx (_ : AFormatter) (columns : Int) : Str :=
  if columns ≤ 0 then [] else ljust [] columns

/-- `ACodeFormatter.indent_for(level, prefix)` (the Python default for
`prefix` is `-1`). -/
def AFormatter.indentFor (F : AFormatter) (level : Int) (pfx : Int) : Str :=
  if level ≤ 0 ∧ pfx ≤ 0 then []
  else
    let ind := repeatStr F.indentStr level
    if (ind.length : Int) > pfx then ind else F.columnPfx pfx

/-- `ACodeFormatter.indent(line, level, prefix)`. -/
def AFormatter.indent (F : AFormatter) (line : Str) (level : Int) (pfx : Int) : Str :=
  F.indentFor level pfx ++ line

/-- `ACodeFormatter.fill_column`: the chained comparison
`0 > len(value) >= columns` is always false, so this is `ljust`. -/
def AFormatter.fillColumn (_ : AFormatter) (value : Str) (columns : Int) : Str :=
  if 0 > (value.length : Int) ∧ (value.length : Int) ≥ columns then value
  else ljust value columns

/-- `ACodeFormatter.prepend_prefix`. -/
def AFormatter.prependPfx (F : AFormatter) (value : Str) (column : Int) : Str :=
  asString [F.columnPfx column, value] []

/-- `ACodeFormatter._must_fill_column_in`. -/
def AFormatter.mustFillColumnIn (_ : AFormatter) (value : Str) (columns : Int) : Bool :=
  if columns ≤ 0 then false else decide ((value.length : Int) ≠ columns)

/-- `ACodeFormatter.is_valid_line(*text, **kw)`. -/
def AFormatter.isValidLine (F : AFormatter) (text : List Str) (kw : FmtArgs) : Bool :=
  let values := cleanBlank text none
  if values.length = 0 then false
  else
    let levelCol := F.indentFor (kw.level.getD 0) (-1)
    let asStr := asString values kw.separator
    decide (((pyRStrip asStr).length : Int) +
      max (levelCol.length : Int) (kw.columns.getD 0) ≤ (F.maxLength : Int))

/-- `ACodeFormatter._get_words`. -/
def AFormatter.getWords (_ : AFormatter) (value : Str) (splitChar : Option Str) : List Str :=
  splitSep (splitChar.getD (str " ")) value

/-- `ACodeFormatter.into_words`: `words = [values[0]]` raises
`IndexError` when every line is blank but `text` is non-empty (modelled
as `none`; unreachable from the call sites). -/
def AFormatter.intoWords (F : AFormatter) (text : List Str) : Option (List Str) :=
  let values := cleanBlank text none
  if text.length = 0 then some []
  else if values.length = 1 then some (F.getWords (values.getD 0 []) none)
  else
    match values with
    | [] => none
    | v :: vs => some (v :: vs.flatMap (fun x => F.getWords x none))

mutual

/-- `ACodeFormatter.concat_values(*values, **kw)`: fuel-bounded because
the Python functions recurse mutually without a termination argument
(`none` = out of fuel or a raised `IndexError`). -/
def concatValues (F : AFormatter) : Nat → List Str → FmtArgs → Option (List Str)
  | 0, _, _ => none
  | _ + 1, [], _ => some []
  | fuel + 1, v0 :: rest, kw =>
    let current0 := F.prependPfx (pyStrip v0) (kw.pfx.getD 0)
    let current1 :=
      if F.mustFillColumnIn current0 (kw.columns.getD 0) then
        F.fillColumn current0 (kw.columns.getD 0)
      else current0
    concatLoop F fuel current1 rest kw

/-- The `for value in values[1:]` loop of `concat_values`, with the
final `concat_lines.append(current)` at the end of the list. -/
def concatLoop (F : AFormatter) : Nat → Str → List Str → FmtArgs → Option (List Str)
  | 0, _, _, _ => none
  | _ + 1, current, [], _ => some [current]
  | fuel + 1, current, v :: rest, kw =>
    let value := pyStrip v
    if value.length = 0 then concatLoop F fuel current rest kw
    else
      let concat := asString [current, value] kw.separator
      if F.isNotMaxLength (some concat) then concatLoop F fuel concat rest kw
      else do
        let cv ←
          if F.isValidLine [value] kw then some (current, value)
          else concatToLongValue F fuel current value kw
        let current2 :=
          if (pyStrip kw.separator).length > 0 then pyRStrip (cv.1 ++ kw.separator)
          else cv.1
        let pfx2 : Int :=
          if kw.columns.getD 0 > 0 then max (kw.pfx.getD 0) (kw.columns.getD 0 + 1)
          else 0
        let lines ← concatLoop F fuel (F.prependPfx cv.2 pfx2) rest kw
        some (current2 :: lines)

/-- `ACodeFormatter._concat_to_long_value`: splits the pair into the
already-full lines (joined with newlines!) and the last line.  When
`is_code` it reads `value_lines[-2]` (an `IndexError` when fewer than
two lines exist) and stores the prefix in its local kwargs copy, which
is then discarded. -/
def concatToLongValue (F : AFormatter) :
    Nat → Str → Str → FmtArgs → Option (Str × Str)
  | 0, _, _, _ => none
  | fuel + 1, current, value, kw => do
    let valueLines ← validLinesFor F fuel [current, value] { kw with separator := str " " }
    let _ ←
      (if kw.isCode.getD false then
        match valueLines.reverse with
        | _ :: l2 :: _ => some (F.findPrefixInCode l2 kw)
        | _ => none
      else some 0)
    match valueLines.reverse with
    | last :: _ => some (linesAsStr valueLines.dropLast, pyLStrip last)
    | [] => none

/-- `ACodeFormatter.valid_lines_for`. -/
def validLinesFor (F : AFormatter) : Nat → List Str → FmtArgs → Option (List Str)
  | 0, _, _ => none
  | fuel + 1, text, kw =>
    if text.length = 0 then some []
    else if F.isValidLine text kw then some (cleanBlank text none)
    else do
      let words ← F.intoWords text
      concatValues F fuel words kw

end

/-- A concrete formatter with `max_length = 4` (two-space indent as in
`LispCodeFormatter`; `find_prefix_in_code` returns the prefix key as the
real implementation does outside code mode). -/
def fmtMax4 : AFormatter :=
  { indentStr := str "  "
    maxLength := 4
    moduleName := []
    findPrefixInCode := fun _ kw => kw.pfx.getD 0 }

/-- The same concrete formatter with `max_length = 10`. -/
def fmtMax10 : AFormatter :=
  { indentStr := str "  "
    maxLength := 10
    moduleName := []
    findPrefixInCode := fun _ kw => kw.pfx.getD 0 }

/-! ## `pyKomorebi/generate.py`

`generate_from_path` discovers documentation files, sorts them, turns
each into an `ApiCommand` via the configured factory and into code lines
via the configured generator, and joins everything (with two empty
separator lines per command) into the written output.  The factory and
generator are plugin collaborators (selected by extension/language), so
the embedding abstracts them as a function `gen` of the discovered file;
a discovered path is modelled by its base name (`p.name`, the sort key
of `doc_file_path`) and its content. -/

/-- A discovered documentation file: base name (the sort key) and
content. -/
structure DocFile where
  name : Str
  content : List Str
deriving DecidableEq, Repr

/-- One insertion step of a stable sort by `name`: an earlier element is
placed before the first later element that is not strictly smaller.
Python's `sorted` is exactly the stable sort by the key, which this
characterizes. -/
def insertByName (f : DocFile) : List DocFile → List DocFile
  | [] => [f]
  | g :: gs => if strLt g.name f.name then g :: insertByName f gs else f :: g :: gs

/-- `GeneratorOptions.doc_file_path`: `sorted(paths, key=lambda p: p.name)`. -/
def sortByName : List DocFile → List DocFile
  | [] => []
  | f :: fs => insertByName f (sortByName fs)

/-- `generate_from_path`: per sorted file the generated lines plus two
empty lines; in the one-file export mode `pre_generator` and
`post_generator` are applied to the accumulated lines before writing. -/
def generateFromPath (gen : DocFile → List Str) (pre post : List Str → List Str)
    (oneFile : Bool) (files : List DocFile) : List Str :=
  let commands := (sortByName files).flatMap (fun f => gen f ++ [[], []])
  if oneFile then post (pre commands) else commands

/-- The non-strict name order underlying `sortByName`. -/
def nameLe (a b : DocFile) : Prop := strLt b.name a.name = false

/-- Two discovered files with the same base name in different
directories but different content. -/
def fileXa : DocFile := { name := str "a.md", content := [str "x"] }

/-- The second same-named file. -/
def fileYa : DocFile := { name := str "a.md", content := [str "y"] }

/-- Two files with distinct base names. -/
def fileA : DocFile := { name := str "a.md", content := [str "x"] }

/-- The second distinctly-named file. -/
def fileB : DocFile := { name := str "b.md", content := [str "y"] }

/-! ## `pyKomorebi/creator/lisp/helper/list.py` — the nested-list builder

`ListHelper` is programmed against the `ICodeFormatter` protocol, so the
embedding takes the formatter as a record of total functions
(`LFormatter`).  `TItem = TypeVar("TItem", str, list[str])`: at runtime
an item is a string or a list of strings (`Item`).  Raised exceptions
(`IndexError` from `self.items[0]`/`lines[-1]`/`items[last_row]`,
`ValueError` from `_get_list_lines`) are embedded with `Except`. -/

/-- A `TItem`: an atomic string or a nested list of strings. -/
abbrev Item := Sum Str (List Str)

/-- The `ICodeFormatter` surface `ListHelper` uses. -/
structure LFormatter where
  indentL : Str → Int → Int → Str
  indentForL : Int → Int → Str
  prefixOfL : Str → Int
  concatValuesL : List Str → FmtArgs → List Str
  concatArgsL : List Str → Str
  isNotMaxLengthL : Option Str → Bool
  isValidLineL : List Str → FmtArgs → Bool
  findPrefixInCodeL : Str → FmtArgs → Int

/-- `ListHelper.start_str`. -/
def startStr : Str := str "(list"

/-- `ListHelper.close_str`. -/
def closeStr : Str := str ")"

/-- The mutable attributes of a `ListHelper` (`prev_code`, `args`,
`items`, `_values`, `_valid_list`). -/
structure LState where
  prevCode : Str
  args : FmtArgs
  items : List Item
  lvalues : List Str
  validList : Bool

/-- `ListHelper._previous_code`. -/
def previousCode (F : LFormatter) (st : LState) : List Str :=
  [F.indentL st.prevCode (st.args.level.getD 0) (-1)]

/-- `ListHelper._get_line`. -/
def getLine (F : LFormatter) (values : List Str) (kw : FmtArgs) : Str :=
  let lines := F.concatValuesL values kw
  let asStr := linesAsStr lines
  if startsWith asStr (str "  ") then asStr
  else F.indentL asStr (kw.level.getD 0) (kw.pfx.getD 0)

/-- The countdown of `_last_valid_index` (`range(len(values), -1, -1)`). -/
def lastValidAux (F : LFormatter) (values : List Str) (kw : FmtArgs) : Nat → Int
  | 0 => if F.isNotMaxLengthL (some (getLine F (values.take 0) kw)) then 0 else -1
  | i + 1 =>
    if F.isNotMaxLengthL (some (getLine F (values.take (i + 1)) kw)) then ((i : Int) + 1)
    else lastValidAux F values kw i

/-- `ListHelper._last_valid_index`. -/
def lastValidIndex (F : LFormatter) (values : List Str) (kw : FmtArgs) : Int :=
  if values.length = 0 then -1 else lastValidAux F values kw values.length

/-- `ListHelper._list_line_exists`: returns at the first line containing
`(list`, true only when that line is exactly `(list` after stripping. -/
def listLineExists (lines : List Str) : Bool :=
  match lines.find? (fun l => containsStr l startStr) with
  | some l => pyStrip l == startStr
  | none => false

/-- Scan of `_get_start_list_line`. -/
def getStartListLineAux : List Str → Int → Int × Option Str
  | [], _ => (-1, none)
  | l :: t, i =>
    if containsStr l startStr then (i, some l) else getStartListLineAux t (i + 1)

/-- `ListHelper._get_start_list_line`. -/
def getStartListLine (lines : List Str) : Int × Option Str :=
  getStartListLineAux lines 0

/-- Minimum of a non-empty list of `Int` (Python `min`). -/
def listMinI : List Int → Int
  | [] => 0
  | x :: t => t.foldl min x

/-- `ListHelper._min_or_prefix` (total: every indexing is guarded). -/
def minOrPfx (F : LFormatter) (prevCode : Str) (lines : List Str) (pfx : Int) : Int :=
  let levelOne : Int := ((F.indentForL 1 (-1)).length : Int)
  if lines.length = 0 then levelOne
  else
    let firstLine := pyRStrip (lines.getD 0 [])
    if lines.length = 1 ∧ endsWith firstLine prevCode then levelOne + 1
    else
      match getStartListLine lines with
      | (_, none) =>
        if ¬ endsWith (lines.getLastD []) closeStr then
          max pfx (rfindStr (lines.getLastD []) (str "("))
        else max pfx (levelOne + 1)
      | (idx, some line) =>
        let startIdx := findStr line startStr
        if endsWith line startStr then max pfx (startIdx + 1)
        else if idx < (lines.length : Int) - 1 then
          let bracketIdxs := (lines.drop idx.toNat).map (fun l => findStr l (str "("))
          let bracketIdxs := bracketIdxs.filter (fun i => i > startIdx)
          let bracketIdxs := if bracketIdxs.length = 0 then [startIdx + 1] else bracketIdxs
          max pfx (listMinI bracketIdxs)
        else max pfx (findStrFrom line (str "(") (startIdx + 1).toNat)

/-- `ListHelper._has_closed_command`. -/
def hasClosedCommand (lines : List Str) : Bool :=
  let opens := (lines.map (fun l => countChar l '(')).sum
  let closes := (lines.map (fun l => countChar l ')')).sum
  if closes = 0 then false else decide ((opens : Int) - (closes : Int) = 2)

/-- The countdown of `_get_opening_line` (`range(len(lines), -1, -1)`
with the out-of-range indexes skipped by the guard). -/
def getOpeningAux (lines : List Str) : Nat → Option Str
  | 0 =>
    let l := lines.getD 0 []
    if endsWith l (str "))") ∨ rfindStr l (str "(") < 0 then
      let last := lines.getLastD []
      if containsStr last closeStr ∧ containsStr last (str "(") then some last else none
    else some l
  | i + 1 =>
    let l := lines.getD (i + 1) []
    if endsWith l (str "))") ∨ rfindStr l (str "(") < 0 then getOpeningAux lines i
    else some l

/-- `ListHelper._get_opening_line`. -/
def getOpeningLine (lines : List Str) : Option Str :=
  if lines.length = 0 then none else getOpeningAux lines (lines.length - 1)

/-- `ListHelper._get_list_prefix(lines, current_prefix)`: raises
`IndexError` reading `lines[-1]` when no line holds `(list`, no current
prefix is given and `lines` is empty. -/
def getListPfx (F : LFormatter) (prevCode : Str) (lines : List Str)
    (currentPfx : Option Int) : Except PyErr Int :=
  match getStartListLine lines with
  | (_, none) =>
    match currentPfx with
    | some p => Except.ok (minOrPfx F prevCode lines p)
    | none =>
      match lines.getLast? with
      | some l => Except.ok (minOrPfx F prevCode lines (F.prefixOfL l))
      | none => Except.error PyErr.indexError
  | (_, some line) =>
    let listIdx := findStr line startStr
    if endsWith line startStr then Except.ok (minOrPfx F prevCode lines listIdx)
    else
      let pfx := findStrFrom line (str "(") (listIdx + 1).toNat
      if pfx > 0 then Except.ok (minOrPfx F prevCode lines pfx)
      else Except.ok (minOrPfx F prevCode lines listIdx)

/-- `ListHelper._get_prefix(lines, current_prefix=None, **kw)`: raises
`IndexError` reading `lines[-1]` when `lines` is empty. -/
def getPfx (F : LFormatter) (prevCode : Str) (lines : List Str)
    (currentPfx : Option Int) (kw : FmtArgs) : Except PyErr Int :=
  match lines.getLast? with
  | none => Except.error PyErr.indexError
  | some last =>
    if endsWith last startStr then getListPfx F prevCode lines currentPfx
    else if hasClosedCommand lines then getListPfx F prevCode lines currentPfx
    else
      match getOpeningLine lines with
      | none => getListPfx F prevCode lines currentPfx
      | some line => do
        let p := F.findPrefixInCodeL line kw
        let p2 := minOrPfx F prevCode lines p
        let g ← getListPfx F prevCode lines currentPfx
        Except.ok (max p2 g)

/-- `ListHelper._exists(value, values)`: Python's `values or
self._values` falls back to `self._values` when `values` is empty or
`None`. -/
def existsIn (st : LState) (value : Str) (values : List Str) : Bool :=
  let target := if values.length = 0 then st.lvalues else values
  target.any (fun l => containsStr l value)

/-- One unwrapped `TItem` list (only used under an `isinstance` guard). -/
def itemStrings : Item → List Str
  | Sum.inl s => [s]
  | Sum.inr ls => ls

/-- The `values` list built at the top of each `create_list_str`
iteration (the previous code, the list marker, then the item's strings). -/
def loopValues (F : LFormatter) (st : LState) (items : List Str) (kw : FmtArgs)
    (item : Item) : List Str :=
  let values : List Str :=
    if kw.level == st.args.level ∧ ¬ existsIn st st.prevCode items then
      previousCode F st
    else []
  let values := if ¬ existsIn st startStr items then values ++ [startStr] else values
  values ++ itemStrings item

/-- The loop body state of `create_list_str`: the accumulated `items`,
`last_expr` and the locally mutated kwargs. -/
def createListStrGo (F : LFormatter) (st : LState) :
    List Item → List Str → Int × Int → FmtArgs → Except PyErr (List Str)
  | [], items, _, _ => Except.ok items
  | item :: restItems, items, lastExpr, kw => do
    let values := loopValues F st items kw item
    match item with
    | Sum.inl _ =>
      let line := asString values (str " ")
      createListStrGo F st restItems
        (items ++ [F.indentL line (kw.level.getD 0) (-1)]) lastExpr kw
    | Sum.inr ls => do
      let index := lastValidIndex F values kw
      let step ←
        if index > 0 then do
          let kw ←
            if hasClosedCommand items then do
              let p ← getPfx F st.prevCode items none kw
              Except.ok { kw with pfx := some p }
            else if items.length > 0 ∧ endsWith (items.getLastD []) startStr then
              Except.ok { kw with pfx := some (minOrPfx F st.prevCode items (kw.pfx.getD 0)) }
            else Except.ok kw
          let lastRow := items.length
          let newLine := getLine F (values.take index.toNat) kw
          let items := items ++ [newLine]
          let head0 ←
            match ls with
            | [] => Except.error PyErr.indexError
            | x :: _ => Except.ok x
          let lastExpr : Int × Int := ((lastRow : Int), findStr newLine head0 - 2)
          let p ← getPfx F st.prevCode items none kw
          Except.ok (items, lastExpr, { kw with pfx := some p }, values.drop index.toNat)
        else Except.ok (items, lastExpr, kw, values)
      let (items, lastExpr, kw, values) := step
      if values.length = 0 then
        createListStrGo F st restItems items lastExpr
          { kw with pfx := some (minOrPfx F st.prevCode items lastExpr.2) }
      else if F.isValidLineL values kw || values.length = 1 then do
        let lastRow := items.length
        let newLines := F.concatValuesL values kw
        let items := items ++ newLines
        let rowLine ←
          match newLines with
          | [] => Except.error PyErr.indexError
          | l :: _ => Except.ok l
        let head0 ←
          match ls with
          | [] => Except.error PyErr.indexError
          | x :: _ => Except.ok x
        let lastExpr : Int × Int := ((lastRow : Int), findStr rowLine head0 - 2)
        createListStrGo F st restItems items lastExpr kw
      else do
        let p ← getPfx F st.prevCode items none kw
        let kw := { kw with pfx := some p }
        let lastRow := items.length
        let newLines := F.concatValuesL [values.getD 0 []] kw
        let items := items ++ newLines
        let rowLine ←
          match newLines with
          | [] => Except.error PyErr.indexError
          | l :: _ => Except.ok l
        let head0 ←
          match ls with
          | [] => Except.error PyErr.indexError
          | x :: _ => Except.ok x
        let lastExpr : Int × Int := ((lastRow : Int), findStr rowLine head0 - 2)
        let p2 ← getPfx F st.prevCode items none kw
        let kw := { kw with pfx := some p2 }
        let items := items ++ F.concatValuesL (values.drop 1) kw
        createListStrGo F st restItems items lastExpr kw

/-- `ListHelper.create_list_str(*list_item, **kw)`. -/
def createListStr (F : LFormatter) (st : LState) (listItems : List Item)
    (kw : FmtArgs) : Except PyErr (List Str) :=
  createListStrGo F st listItems st.lvalues (-1, -1) kw

/-- The loop of `_append_other_items` over `self.items[1:]`. -/
def appendOtherGo (F : LFormatter) (st : LState) :
    List Item → List Str → FmtArgs → Except PyErr (List Str)
  | [], vals, _ => Except.ok vals
  | item :: rest, vals, kw => do
    match item with
    | Sum.inr [] => appendOtherGo F st rest vals kw
    | Sum.inr [x] => appendOtherGo F st rest (vals ++ F.concatValuesL [x] kw) kw
    | Sum.inr (x :: xs) => do
      let vals := vals ++ F.concatValuesL [x] kw
      let p ← getPfx F st.prevCode vals none kw
      let kw := { kw with pfx := some p }
      let vals := vals ++ F.concatValuesL xs kw
      appendOtherGo F st rest vals kw
    | Sum.inl s =>
      appendOtherGo F st rest
        (vals ++ [F.indentL s (kw.level.getD 0) (kw.pfx.getD 0)]) kw

/-- `ListHelper._append_other_items(all_items, **kw)`. -/
def appendOtherItems (F : LFormatter) (st : LState) (allItems : Bool)
    (kw : FmtArgs) : Except PyErr (List Str) :=
  if allItems then Except.ok []
  else do
    let kw ←
      if listLineExists st.lvalues then do
        let p ← getListPfx F st.prevCode st.lvalues kw.pfx
        Except.ok { kw with pfx := some p }
      else do
        let last ←
          match st.lvalues.getLast? with
          | some l => Except.ok l
          | none => Except.error PyErr.indexError
        if endsWith last closeStr then do
          let p ← getListPfx F st.prevCode st.lvalues kw.pfx
          Except.ok { kw with pfx := some p }
        else if endsWith last closeStr then do
          let p ← getPfx F st.prevCode st.lvalues kw.pfx kw
          Except.ok { kw with pfx := some p }
        else Except.ok { kw with pfx := some (F.findPrefixInCodeL last kw) }
    appendOtherGo F st (st.items.drop 1) [] kw

/-- `ListHelper._is_list_of_strings`. -/
def isListOfStrings (items : List Item) : Bool := items.all (fun i => i.isLeft)

/-- `ListHelper._create_list(all_items, **kw)`: `self.items[0]` raises
`IndexError` on an empty item list when `all_items` is False. -/
def createList (F : LFormatter) (st : LState) (allItems : Bool) (kw : FmtArgs) :
    Except PyErr LState := do
  let items : List Item ←
    if allItems then
      if isListOfStrings st.items then
        Except.ok [Sum.inl (F.concatArgsL (st.items.map (fun i =>
          match i with
          | Sum.inl s => s
          | Sum.inr _ => [])))]
      else Except.ok st.items
    else
      match st.items with
      | [] => Except.error PyErr.indexError
      | i :: _ => Except.ok [i]
  let kw := { kw with pfx := some (minOrPfx F st.prevCode st.lvalues 0) }
  let newVals ← createListStr F st items kw
  let st1 := { st with lvalues := newVals }
  let appended ← appendOtherItems F st1 allItems kw
  Except.ok { st1 with lvalues := st1.lvalues ++ appended }

/-- `ListHelper._get_list_lines`: `ValueError` when no line holds the
list marker. -/
def getListLines (lvalues : List Str) : Except PyErr (List Str) :=
  match getStartListLine lvalues with
  | (idx, some _) => Except.ok (lvalues.drop idx.toNat)
  | (_, none) => Except.error PyErr.valueError

/-- `ListHelper._list_lines_are_valid`. -/
def listLinesAreValid (F : LFormatter) (st : LState) : Except PyErr Bool := do
  let ls ← getListLines st.lvalues
  Except.ok (ls.all (fun l => F.isNotMaxLengthL (some l)))

/-- `ListHelper.can_create_all_on(second_line)`. -/
def canCreateAllOn (F : LFormatter) (st : LState) (secondLine : Bool) :
    Except PyErr (Bool × LState) := do
  let st := { st with lvalues := if secondLine then previousCode F st else [] }
  let kwargs := { st.args with separator := str " " }
  let kwargs :=
    if secondLine then { kwargs with pfx := some (minOrPfx F st.prevCode st.lvalues 0) }
    else kwargs
  let st ← createList F st true kwargs
  let b ← listLinesAreValid F st
  Except.ok (b, st)

/-- `ListHelper.can_create_with_first_on(second_line)`. -/
def canCreateWithFirstOn (F : LFormatter) (st : LState) (secondLine : Bool) :
    Except PyErr (Bool × LState) := do
  let st := { st with lvalues := if secondLine then previousCode F st else [] }
  let kwargs := { st.args with separator := str " " }
  let kwargs :=
    if secondLine then { kwargs with pfx := some (minOrPfx F st.prevCode st.lvalues 0) }
    else kwargs
  let st ← createList F st false kwargs
  let b ← listLinesAreValid F st
  Except.ok (b, st)

/-- `ListHelper.create_with_list_on_second_line()` (returns `True`
unconditionally when no exception is raised). -/
def createWithListOnSecondLine (F : LFormatter) (st : LState) :
    Except PyErr (Bool × LState) := do
  let st := { st with lvalues := previousCode F st }
  let pfx := minOrPfx F st.prevCode st.lvalues 0
  let st := { st with lvalues :=
    st.lvalues ++ [F.indentL startStr (st.args.level.getD 0) pfx] }
  let kwargs := { st.args with separator := str " " }
  let kwargs := { kwargs with pfx := some (minOrPfx F st.prevCode st.lvalues 0) }
  let st ← createList F st false kwargs
  Except.ok (true, st)

/-- `ListHelper.found_solution()`: the four layouts tried in order, then
the unconditional last resort. -/
def foundSolution (F : LFormatter) (st : LState) : Except PyErr (Bool × LState) := do
  let r1 ← canCreateAllOn F st false
  if r1.1 then Except.ok (true, r1.2)
  else do
    let r2 ← canCreateWithFirstOn F r1.2 false
    if r2.1 then Except.ok (true, r2.2)
    else do
      let r3 ← canCreateAllOn F r2.2 true
      if r3.1 then Except.ok (true, r3.2)
      else do
        let r4 ← canCreateWithFirstOn F r3.2 true
        if r4.1 then Except.ok (true, r4.2)
        else createWithListOnSecondLine F r4.2

/-- An `LFormatter` built from the embedded `ACodeFormatter` methods
(the fuel feeds the embedded `concat_values`; `concat_args` joins with
spaces, which agrees with `LispCodeFormatter.concat_args` on the empty
argument list used here). -/
def mkLF (A : AFormatter) (fuel : Nat) : LFormatter :=
  { indentL := fun s l p => A.indent s l p
    indentForL := fun l p => A.indentFor l p
    prefixOfL := fun s => A.prefixOf s
    concatValuesL := fun vals kw => (concatValues A fuel vals kw).getD []
    concatArgsL := fun args => asString args (str " ")
    isNotMaxLengthL := fun l => A.isNotMaxLength l
    isValidLineL := fun t kw => A.isValidLine t kw
    findPrefixInCodeL := fun s kw => A.findPrefixInCode s kw }

/-- The concrete formatter of the C9 counterexample (`max_length = 5`). -/
def fmtMax5 : AFormatter :=
  { indentStr := str "  "
    maxLength := 5
    moduleName := []
    findPrefixInCode := fun _ kw => kw.pfx.getD 0 }

/-- Counterexample helper state: a long opening line and no items. -/
def c9StEmpty : LState :=
  { prevCode := str "aaaaaaaa"
    args := { separator := str " " }
    items := []
    lvalues := []
    validList := false }

/-- Counterexample helper state: a long opening line and one nested-list
item. -/
def c9StList : LState :=
  { prevCode := str "aaaaaaaa"
    args := { separator := str " " }
    items := [Sum.inr [str "x"]]
    lvalues := []
    validList := false }

/-- Witness state for the amended builder claim: one atomic item. -/
def c9StStr : LState :=
  { prevCode := str "aaaaaaaa"
    args := { separator := str " " }
    items := [Sum.inl (str "x")]
    lvalues := []
    validList := false }

/-! ### Concrete inputs for the factory claims -/

/-- The help block of the end-to-end scenario (claim C1). -/
def c1Lines : List Str :=
  [str "Usage: tool.exe focus <DIRECTION>",
   str "",
   str "Arguments:",
   str "  <DIRECTION>  Direction to focus [possible values: left, right, up, down]",
   str "",
   str "Options:",
   str "  -h, --help  Print help"]

/-- The `ApiCommand` the intended constructor bindings produce for the
C1 block (the function-level description keeps the `Usage:` line because
`_create_function_doc` only pops it when its index is positive). -/
def c1Expected : ApiCommand :=
  { name := str "focus"
    description := [str "Usage: tool.exe focus <DIRECTION>"]
    usage := some (str "tool.exe focus <DIRECTION>")
    arguments :=
      [{ name := str "<DIRECTION>"
         description := [str "Direction to focus"]
         default := none
         possibleValues :=
           [{ name := str "left", constant := str "left", description := [] },
            { name := str "right", constant := str "right", description := [] },
            { name := str "up", constant := str "up", description := [] },
            { name := str "down", constant := str "down", description := [] }]
         argument := str "<DIRECTION>"
         optional := false }]
    options :=
      [{ name := str "help"
         description := [str "Print help"]
         default := none
         possibleValues := []
         short := some (str "-h")
         long := some (str "--help")
         value := none }] }

/-- An Options-section item-header line with short form `-s`, long form
`--l` and value placeholder `<v>` (claim C2). -/
def optionHeaderLine (s l v : Str) : Str :=
  str "  -" ++ s ++ str ", --" ++ l ++ str " <" ++ v ++ str ">"

/-- The multi-line fallback enumeration body of claim C5. -/
def c5Body : Str := joinNl [str "Possible values:", str "- linear", str "- ease-in-sine"]

/-- The bracket-form enumeration of claim C5. -/
def c5Bracket : Str := str "[possible values: linear, ease-in-sine]"

/-- Body lines where a `[possible values: …]` bracket precedes a
`[default: …]` bracket (claim C4): enumeration matching first would
swallow the default bracket, because the `complete` group of
`CONSTANTS_PATTERN` runs to the end of the string. -/
def c4DemoLines : List Str := [str "[possible values: a, b]", str "[default: a]"]

/-- A well-formed Options block (its single item header satisfies
`OPTION_PATTERN`) on which `create_api_command` nevertheless raises
(claim C6). -/
def c6Lines : List Str := [str "Options:", str "  -h  Help"]

/-! ### Claims C7 and C10 (model-level behaviour) -/

/-- An option whose only help-marker is the long form `--help`. -/
def optHelpC7 : CommandOption := mkCommandOption [] [] [] [] (str "--help") []

/-- An option that is not the help option (its long form is `--hue`) but
whose short form is `-h`. -/
def optHueC7 : CommandOption := mkCommandOption [] [] [] (str "-h") (str "--hue") []

/-- A command owning both options above. -/
def cmdC7 : ApiCommand := mkApiCommand (str "cmd") [] none [] [optHelpC7, optHueC7]

/-- Claim C7, counterexample: `remove_help_option` also removes an option
whose long form is not `--help` (here `--hue`) because its short form is
`-h`; the claim's "no other option removed" fails on `cmdC7`. -/
theorem c7_counterexample :
    cmdC7.options = [optHelpC7, optHueC7] ∧
    optHueC7.long = some (str "--hue") ∧
    optHueC7.long ≠ some (str "--help") ∧
    (cmdC7.removeHelpOption).options = [] := by
  refine ⟨by decide, by decide, by decide, by decide⟩

/-- Claim C7, amended: `remove_help_option` removes exactly the options
satisfying `is_help` (long `--help` or short `-h`); afterwards no option
with long `--help` remains, the surviving options keep their relative
order (the result is a filter of the original list), and the fields
`name`, `description`, `usage` and `arguments` are unchanged. -/
theorem c7_removeHelp_filters (c : ApiCommand)
    (h : ∃ o ∈ c.options, o.long = some (str "--help")) :
    (c.removeHelpOption).options = c.options.filter (fun o => !o.isHelp) ∧
    (∀ o ∈ (c.removeHelpOption).options, o.long ≠ some (str "--help")) ∧
    (c.removeHelpOption).name = c.name ∧
    (c.removeHelpOption).description = c.description ∧
    (c.removeHelpOption).usage = c.usage ∧
    (c.removeHelpOption).arguments = c.arguments := by
  refine ⟨rfl, ?_, rfl, rfl, rfl, rfl⟩
  intro o ho hlong
  rcases h with ⟨_, _, _⟩
  have hmem := List.mem_filter.mp ho
  have hhelp : o.isHelp = true := by
    unfold CommandOption.isHelp
    rw [hlong]
    simp
  rw [hhelp] at hmem
  simp at hmem

/-- Claim C7, witness for the amended theorem at the concrete command
`cmdC7`. -/
theorem c7_removeHelp_filters_witness :
    (cmdC7.removeHelpOption).options = cmdC7.options.filter (fun o => !o.isHelp) ∧
    (∀ o ∈ (cmdC7.removeHelpOption).options, o.long ≠ some (str "--help")) ∧
    (cmdC7.removeHelpOption).name = cmdC7.name ∧
    (cmdC7.removeHelpOption).description = cmdC7.description ∧
    (cmdC7.removeHelpOption).usage = cmdC7.usage ∧
    (cmdC7.removeHelpOption).arguments = cmdC7.arguments :=
  c7_removeHelp_filters cmdC7 ⟨optHelpC7, by decide, by decide⟩

/-- Two commands with the same name but different contents. -/
def cmdC10a : ApiCommand := mkApiCommand (str "focus") [str "first"] none [] []

/-- Second command for C10: same name, different description and options. -/
def cmdC10b : ApiCommand :=
  mkApiCommand (str "focus") [str "second"] (some (str "u")) [] [optHelpC7]

/-- Claim C10, confirmed: dataclass equality and ordering on `ApiCommand`
compare the name alone — equal names make equal commands whatever the
other fields hold, differing names make unequal commands, and `<` is the
string order on names; concretely two commands with the same name but
different descriptions, usage and options compare equal. -/
theorem c10_apiCommand_eq_by_name :
    (∀ a b : ApiCommand, a.name = b.name → apiCommandEq a b = true) ∧
    (∀ a b : ApiCommand, apiCommandEq a b = true → a.name = b.name) ∧
    (∀ a b : ApiCommand, apiCommandLt a b = strLt a.name b.name) ∧
    (apiCommandEq cmdC10a cmdC10b = true ∧ cmdC10a.description ≠ cmdC10b.description ∧
      cmdC10a.usage ≠ cmdC10b.usage ∧ cmdC10a.options ≠ cmdC10b.options) := by
  refine ⟨?_, ?_, fun a b => rfl, by decide, by decide, by decide, by decide⟩
  · intro a b h
    simp [apiCommandEq, h]
  · intro a b h
    simpa [apiCommandEq] using h

/-- Claim C10, witness: the name-equality direction applied to the two
concrete commands with different contents. -/
theorem c10_apiCommand_eq_by_name_witness : apiCommandEq cmdC10a cmdC10b = true :=
  c10_apiCommand_eq_by_name.1 cmdC10a cmdC10b (by decide)

/-! ### Claim C1 (end-to-end parse scenario) -/

/-- Claim C1 (code bug): on the end-to-end help block, the code as
written raises `TypeError` — `_create_options` passes the stale keyword
`constants=` to the `CommandOption` constructor whose dataclass field is
`possible_values` — instead of returning the parsed command; with the
evidently intended constructor binding the pipeline returns exactly the
claimed `ApiCommand` (name `focus`, the usage line, one required
argument `<DIRECTION>` with possible values `left`, `right`, `up`,
`down` in order, one option `-h`/`--help`), and `remove_help_option`
leaves `options` empty. -/
theorem c1_endToEnd :
    createApiCommand (str "focus") c1Lines = Except.error PyErr.typeError ∧
    createApiCommandIntended (str "focus") c1Lines = Except.ok c1Expected ∧
    c1Expected.name = str "focus" ∧
    c1Expected.usage = some (str "tool.exe focus <DIRECTION>") ∧
    c1Expected.arguments.map (fun a => (a.argument, a.optional)) =
      [(str "<DIRECTION>", false)] ∧
    c1Expected.arguments.map (fun a => a.possibleValues.map (fun v => v.name)) =
      [[str "left", str "right", str "up", str "down"]] ∧
    c1Expected.options.map (fun o => (o.short, o.long)) =
      [(some (str "-h"), some (str "--help"))] ∧
    (c1Expected.removeHelpOption).options = [] := by
  refine ⟨rfl, rfl, by decide, by decide, by decide, by decide, by decide, by decide⟩

/-! ### Claim C4 (extraction ordering tie-breaks) -/

/-- Claim C4 (confirmed): in `_docs_default_and_constants` the default is
extracted from the joined body before any enumeration matching, and the
constants are extracted from the residual string with the default
bracket already removed; `_get_constants` prefers the bracket form and
attempts the line-prefix fallback only when the bracket form yields zero
constants; and on a body where a `[possible values: …]` bracket precedes
a `[default: …]` bracket, running default extraction first yields the
default `a` and the clean constants `a`, `b`, whereas composing in the
opposite order would lose the default and corrupt the second constant. -/
theorem c4_defaultBeforeConstants :
    (∀ (docLines : List Str) (sc : Str),
      docsDefaultAndConstants docLines sc =
        ((stripAndCleanBlank
            (splitlines (getConstants (getDefaultValue (joinNl (cleanBlank docLines none))).1).1)
            (some sc)),
          (getDefaultValue (joinNl (cleanBlank docLines none))).2,
          (getConstants (getDefaultValue (joinNl (cleanBlank docLines none))).1).2)) ∧
    (∀ s : Str, (getConstantsRegex s).2 ≠ [] → getConstants s = getConstantsRegex s) ∧
    (docsDefaultAndConstants c4DemoLines (str " ") =
      ([], some (str "a"),
        [mkCommandConstant [] (str "a"), mkCommandConstant [] (str "b")])) ∧
    ((getDefaultValue (getConstants (joinNl (cleanBlank c4DemoLines none))).1).2 = none ∧
      (getConstants (joinNl (cleanBlank c4DemoLines none))).2.map (fun c => c.name) =
        [str "a", str "b]\n[default: a"]) := by
  refine ⟨fun docLines sc => rfl, ?_, by decide, by decide, by decide⟩
  intro s h
  unfold getConstants
  simp only []
  rw [if_neg]
  simpa using h

/-- Claim C4, witness: the bracket-wins conjunct applied at a concrete
body that both extraction forms could match. -/
theorem c4_defaultBeforeConstants_witness :
    getConstants (str "[possible values: a]") = getConstantsRegex (str "[possible values: a]") :=
  c4_defaultBeforeConstants.2.1 (str "[possible values: a]") (by decide)

/-! ### Claim C5 (the two enumeration-extraction paths) -/

/-- Claim C5, counterexample: the multi-line fallback keeps the leading
`- ` marker on each constant name (`split_constant_string` only strips
the dash when the entry carries a colon), so the body made of the lines
`Possible values:` / `- linear` / `- ease-in-sine` does not yield the
same constants as the bracket form. -/
theorem c5_counterexample :
    (getConstants c5Body).2.map (fun c => c.name) =
      [str "- linear", str "- ease-in-sine"] ∧
    (getConstants c5Bracket).2.map (fun c => c.name) =
      [str "linear", str "ease-in-sine"] ∧
    (getConstants c5Body).2 ≠ (getConstants c5Bracket).2 := by
  refine ⟨by decide, by decide, by decide⟩

/-- Claim C5, amended: the fallback path yields the same number of
constants in the same order, but each constant name keeps its leading
`- ` marker; the two paths agree exactly after that marker is removed
from the fallback names. -/
theorem c5_fallback_keeps_dash :
    (getConstants c5Body).2 =
      [mkCommandConstant [] (str "- linear"), mkCommandConstant [] (str "- ease-in-sine")] ∧
    (getConstants c5Body).2.map (fun c => removePfx c.name (str "- ")) =
      (getConstants c5Bracket).2.map (fun c => c.name) ∧
    (getConstants c5Body).2.length = (getConstants c5Bracket).2.length := by
  refine ⟨by decide, by decide, by decide⟩

/-! ### Claim C6 (error behaviour of the parser) -/

/-- Helper: `mapExcept` succeeds when every element translation does. -/
theorem mapExcept_ok {α β ε : Type} (f : α → Except ε β) :
    ∀ l : List α, (∀ a ∈ l, ∃ b, f a = Except.ok b) → ∃ r, mapExcept f l = Except.ok r
  | [], _ => ⟨[], rfl⟩
  | a :: t, h => by
    obtain ⟨b, hb⟩ := h a (by simp)
    obtain ⟨r, hr⟩ := mapExcept_ok f t (fun x hx => h x (by simp [hx]))
    refine ⟨b :: r, ?_⟩
    simp only [mapExcept, hb, hr]
    rfl

/-- Helper: the first component of a `pairwise` element is never the last
element of the underlying list. -/
theorem fst_mem_dropLast_of_mem_pairwise :
    ∀ {l : List Nat} {se : Nat × Nat}, se ∈ pairwise l → se.1 ∈ l.dropLast := by
  intro l
  induction l with
  | nil => intro se h; simp [pairwise] at h
  | cons x t ih =>
    intro se h
    cases t with
    | nil => simp [pairwise] at h
    | cons y u =>
      simp only [pairwise, List.tail_cons, List.zip_cons_cons, List.mem_cons] at h
      rcases h with h | h
      · subst h
        simp [List.dropLast_cons₂]
      · have := ih (by simpa [pairwise] using h)
        simp [List.dropLast_cons₂]
        right
        simpa using this

/-- Helper: every item-header index selected by `_get_indexes` satisfies
the header predicate. -/
theorem pairwise_head_matches {lines : List Str} {p : Str → Bool} {se : Nat × Nat}
    (h : se ∈ pairwise (getIndexes lines p)) : p (lines.getD se.1 []) = true := by
  have h1 : se.1 ∈ (getIndexes lines p).dropLast := fst_mem_dropLast_of_mem_pairwise h
  unfold getIndexes at h1
  rw [List.dropLast_concat] at h1
  exact (List.mem_filter.mp h1).2

/-- Helper: on a line that satisfies the argument item-header predicate,
`_get_argument_name` does not raise. -/
theorem getArgumentName_ok {line : Str} (h : isArgsHeader line = true) :
    ∃ r, getArgumentName line = Except.ok r := by
  unfold isArgsHeader at h
  unfold getArgumentName
  cases hm : argsMatch line with
  | some r => exact ⟨_, rfl⟩
  | none =>
    rw [hm] at h
    cases ho : argsOptMatch line with
    | some r => exact ⟨_, rfl⟩
    | none => rw [ho] at h; simp at h

/-- Claim C6 (code bug): the pieces of the claim that hold — the option
item-header grammar (`OPTION_PATTERN`) is total, so the options path can
never raise a grammar error; with the intended constructor bindings
neither `_create_options` nor `_create_arguments` ever raises (a line is
only treated as an argument item header after it has matched
`ARGS_PATTERN`/`ARGS_OPT_PATTERN`, so the re-match in
`_get_argument_name` cannot fail); and a grammar element failing inside
an item body yields an absent/empty value.  But the code as written
violates the claim: on a block whose only Options item header does match
the grammar, `create_api_command` still raises (the `constants=`
keyword `TypeError`), so "raises exactly on a grammar violation" is
false. -/
theorem c6_error_behaviour :
    (∀ line : Str, getOptionShortAndName line =
      Except.ok ((optionMatch line).short, (optionMatch line).name,
        (optionMatch line).arg, (optionMatch line).description)) ∧
    (∀ (docLines : List Str) (sc : Str),
      ∃ r, createOptionsIntended docLines sc = Except.ok r) ∧
    (∀ (docLines : List Str) (sc : Str),
      ∃ r, createArgumentsIntended docLines sc = Except.ok r) ∧
    (∀ s : Str, defaultMatch s = none → getDefaultValue s = (s, none)) ∧
    (∀ s : Str, constantsMatch s = none → getConstantsRegex s = (s, [])) ∧
    (isOptionHeader (c6Lines.getD 1 []) = true ∧
      createApiCommand (str "cmd") c6Lines = Except.error PyErr.typeError) := by
  refine ⟨fun line => rfl, ?_, ?_, ?_, ?_, by decide, rfl⟩
  · intro docLines sc
    exact mapExcept_ok _ _ (fun se _ => ⟨_, rfl⟩)
  · intro docLines sc
    refine mapExcept_ok _ _ (fun se hse => ?_)
    have hh := pairwise_head_matches hse
    obtain ⟨⟨nm, opt, rest⟩, hr⟩ := getArgumentName_ok hh
    exact ⟨_, by simp only [hr]; rfl⟩
  · intro s h
    unfold getDefaultValue
    rw [h]
  · intro s h
    unfold getConstantsRegex
    rw [h]

/-- Claim C6, witness: the universally quantified conjuncts applied at
concrete inputs (an Options block, an Arguments block, and bodies where
the default/enumeration grammar elements fail to match). -/
theorem c6_error_behaviour_witness :
    (∃ r, createOptionsIntended c6Lines (str " ") = Except.ok r) ∧
    (∃ r, createArgumentsIntended (str "Arguments:" :: [str "  <A>  doc"]) (str " ") =
      Except.ok r) ∧
    getDefaultValue (str "plain text") = (str "plain text", none) ∧
    getConstantsRegex (str "plain text") = (str "plain text", []) :=
  ⟨c6_error_behaviour.2.1 c6Lines (str " "),
   c6_error_behaviour.2.2.1 (str "Arguments:" :: [str "  <A>  doc"]) (str " "),
   c6_error_behaviour.2.2.2.1 (str "plain text") (by decide),
   c6_error_behaviour.2.2.2.2.1 (str "plain text") (by decide)⟩

/-! ### Claim C2 (option round-trip) — helper lemmas -/

/-- Helper: `dropWhile` skips a satisfied block. -/
theorem dropWhile_append_all {p : Char → Bool} :
    ∀ {xs : Str}, (∀ a ∈ xs, p a = true) → ∀ ys : Str,
      (xs ++ ys).dropWhile p = ys.dropWhile p := by
  intro xs
  induction xs with
  | nil => intro _ ys; rfl
  | cons x t ih =>
    intro h ys
    have hx : p x = true := h x (by simp)
    simp only [List.cons_append, List.dropWhile_cons, hx, if_true]
    exact ih (fun a ha => h a (by simp [ha])) ys

/-- Helper: `takeWhile` keeps a satisfied block. -/
theorem takeWhile_append_all {p : Char → Bool} :
    ∀ {xs : Str}, (∀ a ∈ xs, p a = true) → ∀ ys : Str,
      (xs ++ ys).takeWhile p = xs ++ ys.takeWhile p := by
  intro xs
  induction xs with
  | nil => intro _ ys; rfl
  | cons x t ih =>
    intro h ys
    have hx : p x = true := h x (by simp)
    simp only [List.cons_append, List.takeWhile_cons, hx, if_true]
    rw [ih (fun a ha => h a (by simp [ha])) ys]

/-- Helper: `dropWhile` is the identity when no element satisfies `p`. -/
theorem dropWhile_all_false {p : Char → Bool} :
    ∀ {s : Str}, (∀ a ∈ s, p a = false) → s.dropWhile p = s := by
  intro s
  induction s with
  | nil => intro _; rfl
  | cons x t _ =>
    intro h
    have hx : p x = false := h x (by simp)
    simp [List.dropWhile_cons, hx]

/-- Helper: two-sided strip is the identity when no element satisfies `p`. -/
theorem stripBy_all_false {p : Char → Bool} {s : Str} (h : ∀ a ∈ s, p a = false) :
    stripBy p s = s := by
  unfold stripBy stripLeftBy stripRightBy
  rw [dropWhile_all_false h,
    dropWhile_all_false (fun a ha => h a (List.mem_reverse.mp ha)), List.reverse_reverse]

/-- Helper: two-sided strip is the identity when both end characters
fail `p`. -/
theorem stripBy_ends {p : Char → Bool} {a b : Char} {mid : Str}
    (ha : p a = false) (hb : p b = false) :
    stripBy p (a :: (mid ++ [b])) = a :: (mid ++ [b]) := by
  unfold stripBy stripLeftBy stripRightBy
  have h1 : List.dropWhile p (a :: (mid ++ [b])) = a :: (mid ++ [b]) := by
    simp [List.dropWhile_cons, ha]
  rw [h1]
  have h2 : (a :: (mid ++ [b])).reverse = b :: (mid.reverse ++ [a]) := by simp
  rw [h2]
  have h3 : List.dropWhile p (b :: (mid.reverse ++ [a])) = b :: (mid.reverse ++ [a]) := by
    simp [List.dropWhile_cons, hb]
  rw [h3]
  simp

/-- Helper: the last `c` of `v ++ [c]` sits at index `v.length` when `v`
avoids `c`. -/
theorem lastIndexOfChar_concat {c : Char} :
    ∀ {v : Str}, (∀ a ∈ v, a ≠ c) → lastIndexOfChar (v ++ [c]) c = some v.length := by
  intro v
  induction v with
  | nil => intro _; simp [lastIndexOfChar]
  | cons x t ih =>
    intro h
    have ht := ih (fun a ha => h a (by simp [ha]))
    show (match lastIndexOfChar (t ++ [c]) c with
      | some i => some (i + 1)
      | none => if x = c then some 0 else none) = some (t.length + 1)
    rw [ht]

/-- Helper: a string whose characters all miss some character of the
pattern cannot contain the pattern. -/
theorem containsStr_false_of_notMem {pat : Str} {c : Char} (hc : c ∈ pat) :
    ∀ {s : Str}, c ∉ s → containsStr s pat = false := by
  intro s
  induction s with
  | nil =>
    intro _
    cases pat with
    | nil => simp at hc
    | cons p ps => rfl
  | cons x t ih =>
    intro hs
    unfold containsStr containsStrAux
    have h1 : pat.isPrefixOf (x :: t) = false := by
      by_contra hne
      have : pat.isPrefixOf (x :: t) = true := by
        cases hp : pat.isPrefixOf (x :: t) with
        | true => rfl
        | false => exact absurd hp hne
      have hpre : pat <+: x :: t := List.isPrefixOf_iff_prefix.mp this
      exact hs (hpre.subset hc)
    rw [h1]
    simpa [containsStr] using ih (fun hm => hs (by simp [hm]))

/-- Helper: word characters are not whitespace. -/
theorem isWordChar_not_space {c : Char} (h : isWordChar c = true) : isPySpace c = false := by
  cases hsp : isPySpace c with
  | false => rfl
  | true =>
    have hd : ((((c = ' ' ∨ c = '\t') ∨ c = '\n') ∨ c = '\x0d') ∨ c = '\x0b') ∨
        c = '\x0c' := by
      simpa [isPySpace] using hsp
    rcases hd with ((((h' | h') | h') | h') | h') | h' <;> subst h' <;>
      exact absurd h (by decide)

/-- Helper: long-name characters (`[\w-]`) are not whitespace. -/
theorem isLongNameChar_not_space {c : Char} (h : isLongNameChar c = true) :
    isPySpace c = false := by
  rcases (by simpa [isLongNameChar] using h : isWordChar c = true ∨ c = '-') with h' | h'
  · exact isWordChar_not_space h'
  · subst h'; rfl

theorem takeWhile_all {p : Char → Bool} :
    ∀ {xs : Str}, (∀ a ∈ xs, p a = true) → xs.takeWhile p = xs := by
  intro xs
  induction xs with
  | nil => intro _; rfl
  | cons x t ih =>
    intro h
    have hx : p x = true := h x (by simp)
    simp only [List.takeWhile_cons, hx, if_true]
    rw [ih (fun a ha => h a (by simp [ha]))]

theorem optShortStep_family (s X : Str) (hs : s ≠ []) (hsw : ∀ c ∈ s, isWordChar c = true) :
    optShortStep ('-' :: (s ++ (',' :: X))) = (some ('-' :: s), ',' :: X) := by
  unfold optShortStep
  have h1 : (s ++ (',' :: X)).takeWhile isWordChar = s := by
    rw [takeWhile_append_all hsw, List.takeWhile_cons, if_neg (by decide), List.append_nil]
  have h2 : (s ++ (',' :: X)).dropWhile isWordChar = ',' :: X := by
    rw [dropWhile_append_all hsw, List.dropWhile_cons, if_neg (by decide)]
  simp only [h1, h2, if_neg hs]

theorem optLongStep_family (l Y : Str) (hl : l ≠ []) (hlw : ∀ c ∈ l, isLongNameChar c = true) :
    optLongStep (',' :: ' ' :: '-' :: '-' :: (l ++ (' ' :: Y))) =
      (some ('-' :: '-' :: l), ' ' :: Y) := by
  unfold optLongStep
  have h0 : (',' :: ' ' :: '-' :: '-' :: (l ++ (' ' :: Y))).dropWhile
      (fun c => c = ',' || isPySpace c) = '-' :: '-' :: (l ++ (' ' :: Y)) := by
    rw [List.dropWhile_cons, if_pos (by decide), List.dropWhile_cons, if_pos (by decide),
      List.dropWhile_cons, if_neg (by decide)]
  have h1 : (l ++ (' ' :: Y)).takeWhile isLongNameChar = l := by
    rw [takeWhile_append_all hlw, List.takeWhile_cons, if_neg (by decide), List.append_nil]
  have h2 : (l ++ (' ' :: Y)).dropWhile isLongNameChar = ' ' :: Y := by
    rw [dropWhile_append_all hlw, List.dropWhile_cons, if_neg (by decide)]
  simp only [h0, h1, h2, if_neg hl]

theorem optArgStep_family (v : Str) (hv : ∀ c ∈ v, c ≠ '>' ∧ c ≠ '\n') :
    optArgStep ('<' :: (v ++ ['>'])) = (some ('<' :: (v ++ ['>'])), []) := by
  unfold optArgStep
  have h1 : (v ++ ['>']).takeWhile (fun c => c ≠ '\n') = v ++ ['>'] := by
    refine takeWhile_all ?_
    intro a ha
    rcases List.mem_append.mp ha with h | h
    · simpa using (hv a h).2
    · simp at h
      subst h
      decide
  have h2 : lastIndexOfChar (v ++ ['>']) '>' = some v.length :=
    lastIndexOfChar_concat (fun a ha => (hv a ha).1)
  have h3 : (v ++ ['>']).take v.length = v := List.take_left v ['>']
  have h4 : (v ++ ['>']).drop (v.length + 1) = [] := by
    rw [show v.length + 1 = (v ++ ['>']).length by simp, List.drop_length]
  simp only [h1, h2, h3, h4]
  simp

theorem optionMatch_family (s l v : Str)
    (hs : s ≠ []) (hsw : ∀ c ∈ s, isWordChar c = true)
    (hl : l ≠ []) (hlw : ∀ c ∈ l, isLongNameChar c = true)
    (hv : ∀ c ∈ v, c ≠ '>' ∧ c ≠ '\n') :
    optionMatch (optionHeaderLine s l v) =
      { short := some ('-' :: s), name := some ('-' :: '-' :: l),
        arg := some ('<' :: (v ++ ['>'])), description := [] } := by
  have hline : optionHeaderLine s l v =
      ' ' :: ' ' :: '-' :: (s ++ (',' :: (' ' :: '-' :: '-' ::
        (l ++ (' ' :: ('<' :: (v ++ ['>']))))))) := by
    simp [optionHeaderLine, str]
  have e1 : (' ' :: ' ' :: '-' :: (s ++ (',' :: (' ' :: '-' :: '-' ::
      (l ++ (' ' :: ('<' :: (v ++ ['>'])))))))).dropWhile isPySpace =
      '-' :: (s ++ (',' :: (' ' :: '-' :: '-' ::
        (l ++ (' ' :: ('<' :: (v ++ ['>']))))))) := by
    rw [List.dropWhile_cons, if_pos (by decide), List.dropWhile_cons, if_pos (by decide),
      List.dropWhile_cons, if_neg (by decide)]
  have e2 : (' ' :: ('<' :: (v ++ ['>']))).dropWhile isPySpace = '<' :: (v ++ ['>']) := by
    rw [List.dropWhile_cons, if_pos (by decide), List.dropWhile_cons, if_neg (by decide)]
  rw [hline]
  simp only [optionMatch, e1, optShortStep_family s _ hs hsw,
    optLongStep_family l _ hl hlw, e2, optArgStep_family v hv]
  rfl

theorem spaceChars_contains_false {a : Char} (h : isPySpace a = false) :
    (str " ").contains a = false := by
  cases hc : (str " ").contains a with
  | false => rfl
  | true =>
    have : a = ' ' := by simpa [str] using hc
    subst this
    simp [isPySpace] at h

theorem pyValue_of_strip_id {x : Str} (h : pyStrip x = x) (hne : x ≠ []) :
    pyValue x = some x := by
  unfold pyValue
  rw [h, if_neg (by simpa [List.length_eq_zero] using hne)]

theorem c2_family (s l v : Str)
    (hs : s ≠ []) (hsw : ∀ c ∈ s, isWordChar c = true)
    (hl : l ≠ []) (hlw : ∀ c ∈ l, isLongNameChar c = true)
    (hv : ∀ c ∈ v, c ≠ '>' ∧ c ≠ '\n' ∧ c ≠ ':') :
    createOptionsIntended [str "Options:", optionHeaderLine s l v] (str " ") =
      Except.ok [{ name := l
                   description := []
                   default := none
                   possibleValues := []
                   short := some ('-' :: s)
                   long := some ('-' :: '-' :: l)
                   value := some ('<' :: (v ++ ['>'])) }] := by
  have hv' : ∀ c ∈ v, c ≠ '>' ∧ c ≠ '\n' := fun c hc => ⟨(hv c hc).1, (hv c hc).2.1⟩
  have hm := optionMatch_family s l v hs hsw hl hlw hv'
  have hline : optionHeaderLine s l v =
      ' ' :: ' ' :: '-' :: (s ++ (',' :: (' ' :: '-' :: '-' ::
        (l ++ (' ' :: ('<' :: (v ++ ['>']))))))) := by
    simp [optionHeaderLine, str]
  -- no colon occurs in the header line
  have hcolon : ':' ∉ optionHeaderLine s l v := by
    rw [hline]
    intro hmem
    simp only [List.mem_cons, List.mem_append] at hmem
    rcases hmem with h | h | h | h
    · exact absurd h (by decide)
    · exact absurd h (by decide)
    · exact absurd h (by decide)
    rcases h with h | h
    · have := hsw ':' h
      exact absurd this (by decide)
    rcases h with h | h | h | h | h
    · exact absurd h (by decide)
    · exact absurd h (by decide)
    · exact absurd h (by decide)
    · exact absurd h (by decide)
    rcases h with h | h
    · have := hlw ':' h
      exact absurd this (by decide)
    rcases h with h | h | h
    · exact absurd h (by decide)
    · exact absurd h (by decide)
    rcases h with h | h | h
    · exact absurd ((hv ':' h).2.2) (by simp)
    · exact absurd h (by decide)
    · exact absurd h (by decide)
  have hArg : containsStr (optionHeaderLine s l v) (str "Arguments:") = false :=
    containsStr_false_of_notMem (by decide) hcolon
  have c1 : containsStr (str "Options:") (str "Options:") = true := by decide
  have c2 : containsStr (str "Options:") (str "Arguments:") = false := by decide
  have hfind : getLines [str "Options:", optionHeaderLine s l v]
      (str "Options:") (str "Arguments:") = [str "Options:", optionHeaderLine s l v] := by
    unfold getLines findLine
    simp [findLineAux, c1, c2, hArg]
  have hdr : isOptionHeader (optionHeaderLine s l v) = true := by
    unfold isOptionHeader
    rw [hm]
    have hss : pyStrip ('-' :: s) = '-' :: s := by
      refine stripBy_all_false ?_
      intro a ha
      rcases List.mem_cons.mp ha with h | h
      · subst h; rfl
      · exact isWordChar_not_space (hsw a h)
    simp [groupNonBlank, hss]
  have hidx : getIndexes [str "Options:", optionHeaderLine s l v] isOptionHeader = [1, 2] := by
    unfold getIndexes
    have h0 : isOptionHeader (str "Options:") = false := by decide
    rw [show List.range [str "Options:", optionHeaderLine s l v].length = [0, 1] from rfl]
    simp [List.filter, List.getD, h0, hdr]
  have hgo : getOptionShortAndName (optionHeaderLine s l v) =
      Except.ok (some ('-' :: s), some ('-' :: '-' :: l), some ('<' :: (v ++ ['>'])), []) := by
    unfold getOptionShortAndName
    rw [hm]
  have hdd : docsDefaultAndConstants [] (str " ") = ([], none, []) := by decide
  have hnospace : ∀ a ∈ '-' :: s, isPySpace a = false := by
    intro a ha
    rcases List.mem_cons.mp ha with h | h
    · subst h; rfl
    · exact isWordChar_not_space (hsw a h)
  have hnospaceL : ∀ a ∈ '-' :: '-' :: l, isPySpace a = false := by
    intro a ha
    rcases List.mem_cons.mp ha with h | h
    · subst h; rfl
    rcases List.mem_cons.mp h with h | h
    · subst h; rfl
    · exact isLongNameChar_not_space (hlw a h)
  have hstripS : pyStripChars (str " ") ('-' :: s) = '-' :: s :=
    stripBy_all_false (fun a ha => spaceChars_contains_false (hnospace a ha))
  have hstripL : pyStripChars (str " ") ('-' :: '-' :: l) = '-' :: '-' :: l :=
    stripBy_all_false (fun a ha => spaceChars_contains_false (hnospaceL a ha))
  have hstripV : pyStripChars (str " ") ('<' :: (v ++ ['>'])) = '<' :: (v ++ ['>']) :=
    stripBy_ends (by decide) (by decide)
  have hpyS : pyStrip ('-' :: s) = '-' :: s := stripBy_all_false hnospace
  have hpyL : pyStrip ('-' :: '-' :: l) = '-' :: '-' :: l := stripBy_all_false hnospaceL
  have hpyV : pyStrip ('<' :: (v ++ ['>'])) = '<' :: (v ++ ['>']) :=
    stripBy_ends (by decide) (by decide)
  have hmk : mkCommandOption [] [] [] ('-' :: s) ('-' :: '-' :: l) ('<' :: (v ++ ['>'])) =
      { name := l
        description := []
        default := none
        possibleValues := []
        short := some ('-' :: s)
        long := some ('-' :: '-' :: l)
        value := some ('<' :: (v ++ ['>'])) } := by
    unfold mkCommandOption
    have hn : removePfx ('-' :: '-' :: l) (str "--") = l := by
      simp [removePfx, str, List.isPrefixOf]
    rw [hn, pyValue_of_strip_id hpyS (by simp), pyValue_of_strip_id hpyL (by simp),
      pyValue_of_strip_id hpyV (by simp)]
    rfl
  unfold createOptionsIntended createOptionsWith
  rw [hfind]
  simp only [hidx]
  rw [show pairwise [1, 2] = [(1, 2)] from rfl]
  simp only [mapExcept, List.getD_cons_succ, List.getD_cons_zero, hgo]
  simp only [Bind.bind, Except.bind]
  simp [isNotBlankS, hdd, stripValue, pyStripOpt, hstripS, hstripL, hstripV,
    mkOptionIntended, show stripAndCleanBlank [] (some (str " ")) = [] from rfl, hmk]

/-- Claim C2 (code bug): for every Options-section item-header line of
the shape `  -s, --l <V>` (word-character short name, word-or-dash long
name, a placeholder free of `>`, newlines and colons), the header
grammar extracts short `-s`, long `--l` and value `<V>`; but the code as
written raises `TypeError` before producing the `CommandOption` (the
`constants=` constructor keyword), shown here on the claim's own example
`-c, --config <CONFIG>`; with the intended constructor binding the
parser produces exactly the claimed `CommandOption`. -/
theorem c2_option_roundtrip :
    createOptions [str "Options:", optionHeaderLine (str "c") (str "config") (str "CONFIG")]
        (str " ") = Except.error PyErr.typeError ∧
    (∀ s l v : Str, s ≠ [] → (∀ c ∈ s, isWordChar c = true) → l ≠ [] →
      (∀ c ∈ l, isLongNameChar c = true) → (∀ c ∈ v, c ≠ '>' ∧ c ≠ '\n' ∧ c ≠ ':') →
      createOptionsIntended [str "Options:", optionHeaderLine s l v] (str " ") =
        Except.ok [{ name := l
                     description := []
                     default := none
                     possibleValues := []
                     short := some ('-' :: s)
                     long := some ('-' :: '-' :: l)
                     value := some ('<' :: (v ++ ['>'])) }]) :=
  ⟨rfl, fun s l v hs hsw hl hlw hv => c2_family s l v hs hsw hl hlw hv⟩

/-- Claim C2, witness: the intended-semantics round-trip instantiated at
the spec's example `-c, --config <CONFIG>`. -/
theorem c2_option_roundtrip_witness :
    createOptionsIntended
        [str "Options:", optionHeaderLine (str "c") (str "config") (str "CONFIG")] (str " ") =
      Except.ok [{ name := str "config"
                   description := []
                   default := none
                   possibleValues := []
                   short := some ('-' :: str "c")
                   long := some ('-' :: '-' :: str "config")
                   value := some ('<' :: (str "CONFIG" ++ ['>'])) }] :=
  c2_option_roundtrip.2 (str "c") (str "config") (str "CONFIG")
    (by decide) (by decide) (by decide) (by decide) (by decide)

theorem intercalate_singleton (sep x : Str) : List.intercalate sep [x] = x := by
  simp [List.intercalate]

theorem prependPfx_nonpos (F : AFormatter) (x : Str) {c : Int} (hc : c ≤ 0) :
    F.prependPfx x c = x := by
  unfold AFormatter.prependPfx AFormatter.columnPfx
  rw [if_pos hc]
  cases x with
  | nil => rfl
  | cons y ys =>
    show asString [[], y :: ys] [] = y :: ys
    simp [asString, List.filter, intercalate_singleton]

theorem pyStrip_token {v : Str} (h : ∀ c ∈ v, isPySpace c = false) : pyStrip v = v :=
  stripBy_all_false h

theorem pyRStrip_token {v : Str} (h : ∀ c ∈ v, isPySpace c = false) : pyRStrip v = v := by
  unfold pyRStrip stripRightBy
  rw [dropWhile_all_false (fun a ha => h a (List.mem_reverse.mp ha)), List.reverse_reverse]

theorem isValidLine_token (F : AFormatter) (kw : FmtArgs) {v : Str}
    (hlev : kw.level.getD 0 ≤ 0) (hcol : kw.columns.getD 0 ≤ 0)
    (hne : v ≠ []) (htok : ∀ c ∈ v, isPySpace c = false) (hlen : v.length ≤ F.maxLength) :
    F.isValidLine [v] kw = true := by
  unfold AFormatter.isValidLine
  have hcb : cleanBlank [v] none = [v] := by
    simp [cleanBlank, isNotBlankS, List.filter, List.length_pos.mpr hne]
  simp only [hcb]
  have h1 : asString [v] kw.separator = v := rfl
  have h2 : F.indentFor (kw.level.getD 0) (-1) = [] := by
    unfold AFormatter.indentFor
    rw [if_pos ⟨hlev, by decide⟩]
  rw [if_neg (by simp)]
  simp only [h1, h2, pyRStrip_token htok]
  have hm : max ((List.length ([] : Str)) : Int) (kw.columns.getD 0) = 0 := by
    simp
    omega
  rw [hm]
  simp
  exact_mod_cast hlen

theorem concatLoop_bound (F : AFormatter) (kw : FmtArgs)
    (hsep : pyStrip kw.separator = [])
    (hlev : kw.level.getD 0 ≤ 0) (hcol : kw.columns.getD 0 ≤ 0)
    (hpfx : kw.pfx.getD 0 ≤ 0) :
    ∀ (rest : List Str) (fuel : Nat) (current : Str), rest.length < fuel →
      current.length ≤ F.maxLength →
      (∀ v ∈ rest, (∀ c ∈ v, isPySpace c = false) ∧ v.length ≤ F.maxLength) →
      ∃ lines, concatLoop F fuel current rest kw = some lines ∧
        ∀ l' ∈ lines, l'.length ≤ F.maxLength := by
  intro rest
  induction rest with
  | nil =>
    intro fuel current hfuel hcur _
    cases fuel with
    | zero => omega
    | succ f => exact ⟨[current], rfl, by simpa using hcur⟩
  | cons v rest ih =>
    intro fuel current hfuel hcur htok
    cases fuel with
    | zero => omega
    | succ f =>
    have hvtok := (htok v (by simp)).1
    have hvlen := (htok v (by simp)).2
    have htok' : ∀ x ∈ rest, (∀ c ∈ x, isPySpace c = false) ∧ x.length ≤ F.maxLength :=
      fun x hx => htok x (by simp [hx])
    have hstrip : pyStrip v = v := pyStrip_token hvtok
    show ∃ lines, concatLoop F (f + 1) current (v :: rest) kw = some lines ∧ _
    unfold concatLoop
    rw [hstrip]
    by_cases hv0 : v.length = 0
    · rw [if_pos hv0]
      exact ih f current (by simpa using hfuel) hcur htok'
    · rw [if_neg hv0]
      by_cases hfit : F.isNotMaxLength (some (asString [current, v] kw.separator)) = true
      · simp only [hfit, if_true]
        have hclen : (asString [current, v] kw.separator).length ≤ F.maxLength := by
          simpa [AFormatter.isNotMaxLength] using hfit
        exact ih f _ (by simpa using hfuel) hclen htok'
      · rw [Bool.not_eq_true] at hfit
        have hvne : v ≠ [] := fun h => hv0 (by simp [h])
        have hvalid : F.isValidLine [v] kw = true :=
          isValidLine_token F kw hlev hcol hvne hvtok hvlen
        obtain ⟨lines, hlines, hbound⟩ :=
          ih f (F.prependPfx v 0) (by simpa using hfuel)
            (by rw [prependPfx_nonpos F v (by omega)]; exact hvlen) htok'
        rw [prependPfx_nonpos F v (by omega)] at hlines
        refine ⟨current :: lines, ?_, ?_⟩
        · have hnc : ¬ kw.columns.getD 0 > 0 := by omega
          have hns : ¬ (pyStrip kw.separator).length > 0 := by rw [hsep]; simp
          simp [hfit, hvalid, hns, hnc, Option.bind,
            prependPfx_nonpos F v (by omega : (0 : Int) ≤ 0), hlines]
        · intro l' hl'
          rcases List.mem_cons.mp hl' with h | h
          · subst h; exact hcur
          · exact hbound l' h

theorem c3_amended (F : AFormatter) (values : List Str) (kw : FmtArgs) (fuel : Nat)
    (hsep : pyStrip kw.separator = [])
    (hlev : kw.level.getD 0 ≤ 0) (hcol : kw.columns.getD 0 ≤ 0)
    (hpfx : kw.pfx.getD 0 ≤ 0)
    (htok : ∀ v ∈ values, (∀ c ∈ v, isPySpace c = false) ∧ v.length ≤ F.maxLength)
    (hfuel : values.length < fuel) :
    ∃ lines, concatValues F fuel values kw = some lines ∧
      ∀ l' ∈ lines, l'.length ≤ F.maxLength := by
  cases fuel with
  | zero => omega
  | succ f =>
    cases values with
    | nil => exact ⟨[], rfl, by simp⟩
    | cons v0 rest =>
      have hv0tok := (htok v0 (by simp)).1
      have hv0len := (htok v0 (by simp)).2
      have hcur : (F.prependPfx (pyStrip v0) (kw.pfx.getD 0)).length ≤ F.maxLength := by
        rw [pyStrip_token hv0tok, prependPfx_nonpos F v0 hpfx]
        exact hv0len
      have hmf : F.mustFillColumnIn (F.prependPfx (pyStrip v0) (kw.pfx.getD 0))
          (kw.columns.getD 0) = false := by
        unfold AFormatter.mustFillColumnIn
        rw [if_pos hcol]
      show ∃ lines, concatValues F (f + 1) (v0 :: rest) kw = some lines ∧ _
      unfold concatValues
      simp only [hmf, Bool.false_eq_true, if_false]
      exact concatLoop_bound F kw hsep hlev hcol hpfx rest f _
        (by simpa using hfuel) hcur (fun x hx => htok x (by simp [hx]))

/-- Claim C3, counterexample: with a non-blank separator the appended
separator pushes a full line one character over `max_length`
(`["aaaa","bb"]`, separator `,`, `max_length` 4 yields the line `aaaa,`
of length 5); and even with the blank separator a multi-word value that
fails `is_valid_line` makes `_concat_to_long_value` return several
physical lines joined with `\n` as one returned element of length 18 >
10.  In both runs no whitespace-free token of the inputs exceeds the
configured `max_length`. -/
theorem c3_counterexample :
    (concatValues fmtMax4 10 [str "aaaa", str "bb"] { separator := str "," } =
        some [str "aaaa,", str "bb"] ∧
      (str "aaaa,").length = 5 ∧ fmtMax4.maxLength = 4 ∧
      (∀ v ∈ [str "aaaa", str "bb"], ∀ w ∈ splitSep (str " ") v, w.length ≤ 4)) ∧
    (concatValues fmtMax10 30 [str "aaa", str "bbbb cccc dddd eeee ffff"]
          { separator := str " " } =
        some [str "aaa bbbb" ++ '\n' :: str "cccc dddd", str "eeee ffff"] ∧
      (str "aaa bbbb" ++ '\n' :: str "cccc dddd").length = 18 ∧ fmtMax10.maxLength = 10 ∧
      (∀ v ∈ [str "aaa", str "bbbb cccc dddd eeee ffff"],
        ∀ w ∈ splitSep (str " ") v, w.length ≤ 10)) :=
  ⟨⟨rfl, by decide, by decide, by decide⟩, ⟨rfl, by decide, by decide, by decide⟩⟩

/-- Claim C3, amended: the line-length invariant of `concat_values`
holds for every formatter and every fuel when the separator is
whitespace-only, `level`/`columns`/`prefix` are at their defaults (not
positive), and every input value is a single whitespace-free token no
longer than `max_length`: the call returns (without raising or
recursing) and every returned line fits in `max_length`. -/
theorem c3_concat_line_length (F : AFormatter) (values : List Str) (kw : FmtArgs)
    (fuel : Nat) (hsep : pyStrip kw.separator = [])
    (hlev : kw.level.getD 0 ≤ 0) (hcol : kw.columns.getD 0 ≤ 0)
    (hpfx : kw.pfx.getD 0 ≤ 0)
    (htok : ∀ v ∈ values, (∀ c ∈ v, isPySpace c = false) ∧ v.length ≤ F.maxLength)
    (hfuel : values.length < fuel) :
    ∃ lines, concatValues F fuel values kw = some lines ∧
      ∀ l' ∈ lines, l'.length ≤ F.maxLength :=
  c3_amended F values kw fuel hsep hlev hcol hpfx htok hfuel

/-- Claim C3, witness: the amended invariant at a concrete formatter and
token list. -/
theorem c3_concat_line_length_witness :
    ∃ lines,
      concatValues fmtMax10 5 [str "aa", str "bbb", str "cccc"] { separator := str " " } =
        some lines ∧ ∀ l' ∈ lines, l'.length ≤ fmtMax10.maxLength :=
  c3_concat_line_length fmtMax10 [str "aa", str "bbb", str "cccc"]
    { separator := str " " } 5 (by decide) (by decide) (by decide) (by decide)
    (by decide) (by decide)

theorem char_toNat_inj {a b : Char} (h : a.toNat = b.toNat) : a = b :=
  Char.eq_of_val_eq (UInt32.eq_of_val_eq (Fin.eq_of_val_eq
    (by simpa [Char.toNat, UInt32.toNat] using h)))

theorem strLt_conn : ∀ {a b : Str}, strLt a b = false → strLt b a = false → a = b := by
  intro a
  induction a with
  | nil =>
    intro b h1 h2
    cases b with
    | nil => rfl
    | cons y ys => simp [strLt] at h1
  | cons x xs ih =>
    intro b h1 h2
    cases b with
    | nil => simp [strLt] at h2
    | cons y ys =>
      unfold strLt at h1 h2
      by_cases hxy : x.toNat < y.toNat
      · rw [if_pos hxy] at h1
        exact absurd h1 (by simp)
      · rw [if_neg hxy] at h1
        by_cases heq : x.toNat = y.toNat
        · rw [if_pos heq] at h1
          have hyx : ¬ y.toNat < x.toNat := by omega
          rw [if_neg hyx, if_pos heq.symm] at h2
          rw [char_toNat_inj heq, ih h1 h2]
        · rw [if_pos (by omega : y.toNat < x.toNat)] at h2
          exact absurd h2 (by simp)

theorem strLt_nil_right : ∀ c : Str, strLt c [] = false := by
  intro c
  cases c <;> rfl

theorem strLt_neg_trans : ∀ {a b c : Str}, strLt b a = false → strLt c b = false →
    strLt c a = false := by
  intro a
  induction a with
  | nil => intro b c _ _; exact strLt_nil_right c
  | cons x xs ih =>
    intro b c h1 h2
    cases b with
    | nil => simp [strLt] at h1
    | cons y ys =>
      cases c with
      | nil => simp [strLt] at h2
      | cons z zs =>
        unfold strLt at h1 h2 ⊢
        by_cases hyx : y.toNat < x.toNat
        · rw [if_pos hyx] at h1
          exact absurd h1 (by simp)
        · rw [if_neg hyx] at h1
          by_cases hzy : z.toNat < y.toNat
          · rw [if_pos hzy] at h2
            exact absurd h2 (by simp)
          · rw [if_neg hzy] at h2
            rw [if_neg (by omega : ¬ z.toNat < x.toNat)]
            by_cases hex : z.toNat = x.toNat
            · rw [if_pos hex]
              have hey : y.toNat = x.toNat := by omega
              rw [if_pos hey] at h1
              rw [if_pos (by omega : z.toNat = y.toNat)] at h2
              exact ih h1 h2
            · rw [if_neg hex]

theorem strLt_asymm : ∀ {a b : Str}, strLt a b = true → strLt b a = false := by
  intro a
  induction a with
  | nil =>
    intro b h
    exact strLt_nil_right b
  | cons x xs ih =>
    intro b h
    cases b with
    | nil => rw [strLt_nil_right] at h; exact Bool.noConfusion h
    | cons y ys =>
      unfold strLt at h ⊢
      by_cases hxy : x.toNat < y.toNat
      · rw [if_neg (by omega : ¬ y.toNat < x.toNat), if_neg (by omega : ¬ y.toNat = x.toNat)]
      · rw [if_neg hxy] at h
        by_cases hex : x.toNat = y.toNat
        · rw [if_pos hex] at h
          rw [if_neg (by omega : ¬ y.toNat < x.toNat), if_pos (by omega : y.toNat = x.toNat)]
          exact ih h
        · rw [if_neg hex] at h
          exact Bool.noConfusion h

theorem insertByName_perm (f : DocFile) : ∀ l : List DocFile,
    (insertByName f l).Perm (f :: l) := by
  intro l
  induction l with
  | nil => exact List.Perm.refl _
  | cons g gs ih =>
    unfold insertByName
    by_cases h : strLt g.name f.name = true
    · simp only [h, if_true]
      exact (ih.cons g).trans (List.Perm.swap f g gs)
    · rw [Bool.not_eq_true] at h
      simp only [h, Bool.false_eq_true, if_false]
      exact List.Perm.refl _

theorem sortByName_perm : ∀ l : List DocFile, (sortByName l).Perm l := by
  intro l
  induction l with
  | nil => exact List.Perm.refl _
  | cons f fs ih =>
    exact (insertByName_perm f (sortByName fs)).trans (ih.cons f)

theorem insertByName_pairwise (f : DocFile) : ∀ {l : List DocFile},
    List.Pairwise nameLe l → List.Pairwise nameLe (insertByName f l) := by
  intro l
  induction l with
  | nil => intro _; simp [insertByName, List.pairwise_cons, nameLe]
  | cons g gs ih =>
    intro h
    rcases List.pairwise_cons.mp h with ⟨hg, hgs⟩
    unfold insertByName
    by_cases hlt : strLt g.name f.name = true
    · simp only [hlt, if_true]
      refine List.pairwise_cons.mpr ⟨?_, ih hgs⟩
      intro b hb
      have hb' := (insertByName_perm f gs).mem_iff.mp hb
      rcases List.mem_cons.mp hb' with h' | h'
      · subst h'
        exact strLt_asymm hlt
      · exact hg b h'
    · rw [Bool.not_eq_true] at hlt
      simp only [hlt, Bool.false_eq_true, if_false]
      refine List.pairwise_cons.mpr ⟨?_, h⟩
      intro b hb
      rcases List.mem_cons.mp hb with h' | h'
      · subst h'
        exact hlt
      · exact strLt_neg_trans hlt (hg b h')

theorem sortByName_pairwise : ∀ l : List DocFile, List.Pairwise nameLe (sortByName l) := by
  intro l
  induction l with
  | nil => simp [sortByName]
  | cons f fs ih => exact insertByName_pairwise f ih

theorem sorted_perm_nodup_eq : ∀ (l1 l2 : List DocFile), l1.Perm l2 →
    List.Pairwise nameLe l1 → List.Pairwise nameLe l2 →
    (l1.map DocFile.name).Nodup → l1 = l2 := by
  intro l1
  induction l1 with
  | nil =>
    intro l2 hp _ _ _
    exact hp.nil_eq
  | cons a t1 ih =>
    intro l2 hp hs1 hs2 hnd
    cases l2 with
    | nil => exact absurd hp (by simp)
    | cons b t2 =>
      rcases List.pairwise_cons.mp hs1 with ⟨ha, ht1⟩
      rcases List.pairwise_cons.mp hs2 with ⟨hb, ht2⟩
      have hab : a = b := by
        have hamem : a ∈ b :: t2 := hp.mem_iff.mp (by simp)
        have hbmem : b ∈ a :: t1 := hp.mem_iff.mpr (by simp)
        rcases List.mem_cons.mp hamem with h | h
        · exact h
        rcases List.mem_cons.mp hbmem with h' | h'
        · exact h'.symm
        -- a ∈ t2 and b ∈ t1: sortedness forces equal names, nodup forbids it
        have h1 : strLt a.name b.name = false := hb a h
        have h2 : strLt b.name a.name = false := ha b h'
        have hname : b.name = a.name := strLt_conn h2 h1
        exfalso
        have : a.name ∈ t1.map DocFile.name := by
          exact List.mem_map.mpr ⟨b, h', hname⟩
        rcases List.nodup_cons.mp hnd with ⟨hna, _⟩
        exact hna this
      subst hab
      have ht : t1 = t2 :=
        ih t2 (hp.cons_inv) ht1 ht2 (List.nodup_cons.mp hnd).2
      rw [ht]

theorem sortByName_perm_invariant {l1 l2 : List DocFile} (hp : l1.Perm l2)
    (hnd : (l1.map DocFile.name).Nodup) : sortByName l1 = sortByName l2 := by
  refine sorted_perm_nodup_eq (sortByName l1) (sortByName l2)
    ((sortByName_perm l1).trans (hp.trans (sortByName_perm l2).symm))
    (sortByName_pairwise l1) (sortByName_pairwise l2) ?_
  have hmp : ((sortByName l1).map DocFile.name).Perm (l1.map DocFile.name) :=
    (sortByName_perm l1).map DocFile.name
  exact hmp.nodup_iff.mpr hnd

/-- Claim C8, counterexample: two discovered files with the same base
name (`a.md` in two directories) but different content; `sorted` is
stable and keys only on the base name, so the two discovery orders
produce different outputs. -/
theorem c8_counterexample :
    [fileXa, fileYa].Perm [fileYa, fileXa] ∧
    generateFromPath (fun f => f.content) id id false [fileXa, fileYa] ≠
      generateFromPath (fun f => f.content) id id false [fileYa, fileXa] := by
  constructor
  · exact List.Perm.swap fileYa fileXa []
  · decide

/-- Claim C8, amended: when the discovered files' base names are
pairwise distinct, generating from any two discovery orders of the same
file set produces identical output, because `doc_file_path` sorts the
paths by base name (note: the sort key is the file's base name, not the
command name). -/
theorem c8_stable_output (gen : DocFile → List Str) (pre post : List Str → List Str)
    (oneFile : Bool) (l1 l2 : List DocFile) (hp : l1.Perm l2)
    (hnd : (l1.map DocFile.name).Nodup) :
    generateFromPath gen pre post oneFile l1 = generateFromPath gen pre post oneFile l2 := by
  unfold generateFromPath
  rw [sortByName_perm_invariant hp hnd]


/-- Claim C8, witness: the amended determinism applied to two files with
distinct names discovered in opposite orders. -/
theorem c8_stable_output_witness :
    generateFromPath (fun f => f.content) id id false [fileB, fileA] =
      generateFromPath (fun f => f.content) id id false [fileA, fileB] :=
  c8_stable_output (fun f => f.content) id id false [fileB, fileA] [fileA, fileB]
    (List.Perm.swap fileA fileB []) (by decide)

/-! ### The nested-list builder (claim C9) -/

/-- A prefix is in particular an infix. -/
theorem pfxInfix {l r : Str} (h : l <+: r) : l <:+: r := by
  rcases h with ⟨w, rfl⟩
  exact ⟨[], w, by simp⟩

/-- `containsStr` decides the substring (infix) relation. -/
theorem containsStr_infix_iff {s pat : Str} : containsStr s pat = true ↔ pat <:+: s := by
  unfold containsStr
  induction s with
  | nil =>
    simp only [containsStrAux, List.isPrefixOf_iff_prefix, List.infix_nil]
    constructor
    · intro h
      exact List.prefix_nil.mp h
    · intro h
      simp [h]
  | cons x t ih =>
    simp only [containsStrAux, Bool.or_eq_true, List.isPrefixOf_iff_prefix, ih,
      List.infix_cons_iff]

/-- Substring containment is transitive. -/
theorem containsStr_trans {a b c : Str} (h1 : containsStr b a = true)
    (h2 : containsStr c b = true) : containsStr c a = true :=
  containsStr_infix_iff.mpr ((containsStr_infix_iff.mp h1).trans (containsStr_infix_iff.mp h2))

/-- A member of the list is a substring of its `intercalate`. -/
theorem infix_intercalate {x : Str} {sep : Str} :
    ∀ {xs : List Str}, x ∈ xs → x <:+: List.intercalate sep xs := by
  intro xs
  induction xs with
  | nil => intro h; cases h
  | cons a t ih =>
    intro h
    cases t with
    | nil =>
      rcases List.mem_cons.mp h with rfl | h
      · simp [List.intercalate]
      · cases h
    | cons b t2 =>
      have heq : List.intercalate sep (a :: b :: t2) = a ++ sep ++ List.intercalate sep (b :: t2) := by
        simp [List.intercalate, List.intersperse]
      rcases List.mem_cons.mp h with rfl | h
      · rw [heq]
        exact pfxInfix ((List.prefix_append x sep).trans (List.prefix_append (x ++ sep) _))
      · have hx := ih h
        rw [heq]
        rcases hx with ⟨u, v, huv⟩
        exact ⟨a ++ sep ++ u, v, by simp [← huv]⟩

/-- A non-empty member of the list is a substring of `as_string`. -/
theorem containsStr_asString {x : Str} {values : List Str} {sep : Str}
    (hx : x ∈ values) (hne : x ≠ []) :
    containsStr (asString values sep) x = true := by
  rw [containsStr_infix_iff]
  match values, hx with
  | [v], hx =>
    rcases List.mem_cons.mp hx with rfl | h
    · exact List.infix_refl x
    · cases h
  | a :: b :: t, hx =>
    show x <:+: List.intercalate sep ((a :: b :: t).filter (fun v => v.length > 0))
    apply infix_intercalate
    rw [List.mem_filter]
    refine ⟨hx, ?_⟩
    simpa using List.length_pos.mpr hne

/-- If some line holds the list marker, `_get_start_list_line` finds one. -/
theorem getStartListLineAux_some {lines : List Str}
    (h : ∃ l ∈ lines, containsStr l startStr = true) :
    ∀ i, ∃ j l, getStartListLineAux lines i = (j, some l) := by
  induction lines with
  | nil => rcases h with ⟨l, hl, _⟩; cases hl
  | cons a t ih =>
    intro i
    by_cases ha : containsStr a startStr = true
    · exact ⟨i, a, by simp [getStartListLineAux, ha]⟩
    · rcases h with ⟨l, hl, hc⟩
      rcases List.mem_cons.mp hl with rfl | hl
      · exact absurd hc ha
      · rcases ih ⟨l, hl, hc⟩ (i + 1) with ⟨j, l2, hj⟩
        exact ⟨j, l2, by simp [getStartListLineAux, ha, hj]⟩

/-- `_get_list_lines` succeeds when some line holds the marker. -/
theorem getListLines_ok {lvalues : List Str}
    (h : ∃ l ∈ lvalues, containsStr l startStr = true) :
    ∃ ls, getListLines lvalues = Except.ok ls := by
  rcases getStartListLineAux_some h 0 with ⟨j, l, hj⟩
  exact ⟨lvalues.drop j.toNat, by simp [getListLines, getStartListLine, hj]⟩

/-- `_get_list_prefix` raises nothing on a non-empty line list. -/
theorem getListPfx_ok (F : LFormatter) (pc : Str) {lines : List Str} (cp : Option Int)
    (h : lines ≠ []) : ∃ p, getListPfx F pc lines cp = Except.ok p := by
  rcases hs : getStartListLine lines with ⟨i, ln⟩
  cases ln with
  | none =>
    cases cp with
    | none =>
      rcases hl : lines.getLast? with _ | l
      · exact absurd (List.getLast?_eq_none_iff.mp hl) h
      · exact ⟨minOrPfx F pc lines (F.prefixOfL l), by simp [getListPfx, hs, hl]⟩
    | some p => exact ⟨minOrPfx F pc lines p, by simp [getListPfx, hs]⟩
  | some line =>
    by_cases he : endsWith line startStr = true
    · exact ⟨minOrPfx F pc lines (findStr line startStr), by simp [getListPfx, hs, he]⟩
    · by_cases hp : findStrFrom line (str "(") (findStr line startStr + 1).toNat > 0
      · exact ⟨minOrPfx F pc lines (findStrFrom line (str "(") (findStr line startStr + 1).toNat),
          by simp [getListPfx, hs, he, hp]⟩
      · exact ⟨minOrPfx F pc lines (findStr line startStr), by simp [getListPfx, hs, he, hp]⟩

/-- Every string-only run of the `create_list_str` loop succeeds and only
appends to the accumulated lines. -/
theorem createListStrGo_str (F : LFormatter) (st : LState) :
    ∀ (listItems : List Item) (items : List Str) (lastExpr : Int × Int) (kw : FmtArgs),
      (∀ i ∈ listItems, i.isLeft = true) →
      ∃ res, createListStrGo F st listItems items lastExpr kw = Except.ok res ∧ items <+: res := by
  intro listItems
  induction listItems with
  | nil => exact fun items lastExpr kw _ => ⟨items, rfl, List.prefix_refl items⟩
  | cons item rest ih =>
    intro items lastExpr kw hstr
    have hhead := hstr item (List.mem_cons_self item rest)
    have htail := fun i hi => hstr i (List.mem_cons_of_mem item hi)
    cases item with
    | inr ls => simp [Sum.isLeft] at hhead
    | inl s =>
      obtain ⟨res, hres, hpre⟩ := ih
        (items ++ [F.indentL (asString (loopValues F st items kw (Sum.inl s)) (str " "))
          (kw.level.getD 0) (-1)]) lastExpr kw htail
      exact ⟨res, by simpa [createListStrGo] using hres,
        List.IsPrefix.trans (List.prefix_append items _) hpre⟩

/-- `_exists` over the stored lines is a plain containment scan. -/
theorem existsIn_self (st : LState) (v : Str) :
    existsIn st v st.lvalues = st.lvalues.any (fun l => containsStr l v) := by
  simp [existsIn]

/-- `create_list_str` on a non-empty string-only item list succeeds; the
result extends the stored lines and some result line holds the marker. -/
theorem createListStr_str (F : LFormatter) (st : LState)
    (hind : ∀ s l p, containsStr (F.indentL s l p) s = true)
    (listItems : List Item) (hne : listItems ≠ [])
    (hstr : ∀ i ∈ listItems, i.isLeft = true) (kw : FmtArgs) :
    ∃ res, createListStr F st listItems kw = Except.ok res ∧ st.lvalues <+: res ∧
      ∃ line ∈ res, containsStr line startStr = true := by
  match listItems, hne with
  | item :: rest, _ =>
    have hhead := hstr item (List.mem_cons_self item rest)
    have htail := fun i hi => hstr i (List.mem_cons_of_mem item hi)
    cases item with
    | inr ls => simp [Sum.isLeft] at hhead
    | inl s =>
      obtain ⟨res, hres, hpre⟩ := createListStrGo_str F st rest
        (st.lvalues ++ [F.indentL (asString (loopValues F st st.lvalues kw (Sum.inl s)) (str " "))
          (kw.level.getD 0) (-1)]) (-1, -1) kw htail
      refine ⟨res, ?_, (List.prefix_append st.lvalues _).trans hpre, ?_⟩
      · show createListStrGo F st (Sum.inl s :: rest) st.lvalues (-1, -1) kw = Except.ok res
        simpa [createListStrGo] using hres
      · by_cases hex : existsIn st startStr st.lvalues = true
        · rw [existsIn_self] at hex
          obtain ⟨l, hl, hc⟩ := List.any_eq_true.mp hex
          exact ⟨l, ((List.prefix_append st.lvalues _).trans hpre).subset hl, hc⟩
        · have hmem : startStr ∈ loopValues F st st.lvalues kw (Sum.inl s) := by
            unfold loopValues
            simp only [hex, Bool.not_eq_true] at *
            simp [hex]
          have h1 : containsStr (asString (loopValues F st st.lvalues kw (Sum.inl s)) (str " "))
              startStr = true := containsStr_asString hmem (by decide)
          refine ⟨F.indentL (asString (loopValues F st st.lvalues kw (Sum.inl s)) (str " "))
            (kw.level.getD 0) (-1), ?_, containsStr_trans h1 (hind _ _ _)⟩
          exact hpre.subset (List.mem_append_right st.lvalues (List.mem_singleton_self _))

/-- The trailing loop of `_append_other_items` never raises on string
items. -/
theorem appendOtherGo_str (F : LFormatter) (st : LState) :
    ∀ (its : List Item) (vals : List Str) (kw : FmtArgs),
      (∀ i ∈ its, i.isLeft = true) →
      ∃ r, appendOtherGo F st its vals kw = Except.ok r := by
  intro its
  induction its with
  | nil => exact fun vals kw _ => ⟨vals, rfl⟩
  | cons item rest ih =>
    intro vals kw hstr
    have hhead := hstr item (List.mem_cons_self item rest)
    have htail := fun i hi => hstr i (List.mem_cons_of_mem item hi)
    cases item with
    | inr ls => simp [Sum.isLeft] at hhead
    | inl s =>
      obtain ⟨r, hr⟩ := ih (vals ++ [F.indentL s (kw.level.getD 0) (kw.pfx.getD 0)]) kw htail
      exact ⟨r, by simpa [appendOtherGo] using hr⟩

/-- `_append_other_items` never raises on string items once some lines
are stored. -/
theorem appendOtherItems_str (F : LFormatter) (st : LState) (kw : FmtArgs)
    (hvne : st.lvalues ≠ []) (hstr : ∀ i ∈ st.items, i.isLeft = true) :
    ∃ r, appendOtherItems F st false kw = Except.ok r := by
  have htail : ∀ i ∈ st.items.drop 1, i.isLeft = true :=
    fun i hi => hstr i (List.mem_of_mem_drop hi)
  by_cases hll : listLineExists st.lvalues = true
  · obtain ⟨p, hp⟩ := getListPfx_ok F st.prevCode kw.pfx hvne
    obtain ⟨r, hr⟩ := appendOtherGo_str F st (st.items.drop 1) [] { kw with pfx := some p } htail
    exact ⟨r, by simpa [appendOtherItems, hll, hp, Except.bind, Bind.bind, List.drop_one] using hr⟩
  · rcases hlast : st.lvalues.getLast? with _ | last
    · exact absurd (List.getLast?_eq_none_iff.mp hlast) hvne
    · by_cases hc : endsWith last closeStr = true
      · obtain ⟨p, hp⟩ := getListPfx_ok F st.prevCode kw.pfx hvne
        obtain ⟨r, hr⟩ := appendOtherGo_str F st (st.items.drop 1) [] { kw with pfx := some p } htail
        exact ⟨r, by simpa [appendOtherItems, hll, hlast, hc, hp, Except.bind, Bind.bind, List.drop_one] using hr⟩
      · obtain ⟨r, hr⟩ := appendOtherGo_str F st (st.items.drop 1) []
          { kw with pfx := some (F.findPrefixInCodeL last kw) } htail
        exact ⟨r, by simpa [appendOtherItems, hll, hlast, hc, Except.bind, Bind.bind, List.drop_one] using hr⟩

/-- `_create_list` on non-empty string-only items succeeds, only changes
the stored lines, and leaves a line holding the list marker. -/
theorem createList_str (F : LFormatter) (st : LState) (allItems : Bool) (kw : FmtArgs)
    (hind : ∀ s l p, containsStr (F.indentL s l p) s = true)
    (hne : st.items ≠ []) (hstr : ∀ i ∈ st.items, i.isLeft = true) :
    ∃ nv, createList F st allItems kw = Except.ok { st with lvalues := nv } ∧
      ∃ line ∈ nv, containsStr line startStr = true := by
  cases allItems with
  | true =>
    have hall : isListOfStrings st.items = true := by
      unfold isListOfStrings
      rw [List.all_eq_true]
      exact hstr
    obtain ⟨res, hres, hpre, line, hlm, hlc⟩ := createListStr_str F st hind
      [Sum.inl (F.concatArgsL (st.items.map (fun i =>
        match i with
        | Sum.inl s => s
        | Sum.inr _ => [])))] (by simp)
      (by intro i hi; rcases List.mem_singleton.mp hi with rfl; rfl)
      { kw with pfx := some (minOrPfx F st.prevCode st.lvalues 0) }
    refine ⟨res ++ [], ?_, line, List.mem_append_left [] hlm, hlc⟩
    simp [createList, hall, hres, appendOtherItems, Except.bind, Bind.bind]
  | false =>
    rcases hitems : st.items with _ | ⟨i, restI⟩
    · exact absurd hitems hne
    · have hhead : i.isLeft = true := hstr i (by rw [hitems]; exact List.mem_cons_self i restI)
      cases i with
      | inr ls => simp [Sum.isLeft] at hhead
      | inl s =>
        obtain ⟨res, hres, hpre, line, hlm, hlc⟩ := createListStr_str F st hind
          [Sum.inl s] (by simp)
          (by intro i hi; rcases List.mem_singleton.mp hi with rfl; rfl)
          { kw with pfx := some (minOrPfx F st.prevCode st.lvalues 0) }
        have hvne : ({ st with lvalues := res } : LState).lvalues ≠ [] := by
          intro hnil
          rw [show ({ st with lvalues := res } : LState).lvalues = res from rfl] at hnil
          exact absurd (hnil ▸ hlm) (List.not_mem_nil line)
        obtain ⟨r, hr⟩ := appendOtherItems_str F { st with lvalues := res }
          { kw with pfx := some (minOrPfx F st.prevCode st.lvalues 0) } hvne hstr
        rw [hitems] at hr
        refine ⟨res ++ r, ?_, line, List.mem_append_left r hlm, hlc⟩
        simp [createList, hitems, hres, hr, Except.bind, Bind.bind]

/-- `can_create_all_on` raises nothing on non-empty string-only items;
it only rewrites the stored lines. -/
theorem canCreateAllOn_str (F : LFormatter) (st : LState) (sl : Bool)
    (hind : ∀ s l p, containsStr (F.indentL s l p) s = true)
    (hne : st.items ≠ []) (hstr : ∀ i ∈ st.items, i.isLeft = true) :
    ∃ b nv, canCreateAllOn F st sl = Except.ok (b, { st with lvalues := nv }) := by
  cases sl with
  | false =>
    obtain ⟨nv, hcl, line, hlm, hlc⟩ := createList_str F { st with lvalues := [] } true
      { st.args with separator := str " " } hind hne hstr
    obtain ⟨ls, hls⟩ := getListLines_ok ⟨line, hlm, hlc⟩
    refine ⟨ls.all (fun l => F.isNotMaxLengthL (some l)), nv, ?_⟩
    simp [canCreateAllOn, hcl, listLinesAreValid, hls, Except.bind, Bind.bind]
  | true =>
    obtain ⟨nv, hcl, line, hlm, hlc⟩ := createList_str F
      { st with lvalues := previousCode F st } true
      { st.args with
          separator := str " "
          pfx := some (minOrPfx F st.prevCode (previousCode F st) 0) } hind hne hstr
    obtain ⟨ls, hls⟩ := getListLines_ok ⟨line, hlm, hlc⟩
    refine ⟨ls.all (fun l => F.isNotMaxLengthL (some l)), nv, ?_⟩
    simp [canCreateAllOn, hcl, listLinesAreValid, hls, Except.bind, Bind.bind]

/-- `can_create_with_first_on` raises nothing on non-empty string-only
items; it only rewrites the stored lines. -/
theorem canCreateWithFirstOn_str (F : LFormatter) (st : LState) (sl : Bool)
    (hind : ∀ s l p, containsStr (F.indentL s l p) s = true)
    (hne : st.items ≠ []) (hstr : ∀ i ∈ st.items, i.isLeft = true) :
    ∃ b nv, canCreateWithFirstOn F st sl = Except.ok (b, { st with lvalues := nv }) := by
  cases sl with
  | false =>
    obtain ⟨nv, hcl, line, hlm, hlc⟩ := createList_str F { st with lvalues := [] } false
      { st.args with separator := str " " } hind hne hstr
    obtain ⟨ls, hls⟩ := getListLines_ok ⟨line, hlm, hlc⟩
    refine ⟨ls.all (fun l => F.isNotMaxLengthL (some l)), nv, ?_⟩
    simp [canCreateWithFirstOn, hcl, listLinesAreValid, hls, Except.bind, Bind.bind]
  | true =>
    obtain ⟨nv, hcl, line, hlm, hlc⟩ := createList_str F
      { st with lvalues := previousCode F st } false
      { st.args with
          separator := str " "
          pfx := some (minOrPfx F st.prevCode (previousCode F st) 0) } hind hne hstr
    obtain ⟨ls, hls⟩ := getListLines_ok ⟨line, hlm, hlc⟩
    refine ⟨ls.all (fun l => F.isNotMaxLengthL (some l)), nv, ?_⟩
    simp [canCreateWithFirstOn, hcl, listLinesAreValid, hls, Except.bind, Bind.bind]

/-- The last resort `create_with_list_on_second_line` raises nothing on
non-empty string-only items and reports success. -/
theorem createWithListOnSecondLine_str (F : LFormatter) (st : LState)
    (hind : ∀ s l p, containsStr (F.indentL s l p) s = true)
    (hne : st.items ≠ []) (hstr : ∀ i ∈ st.items, i.isLeft = true) :
    ∃ nv, createWithListOnSecondLine F st = Except.ok (true, { st with lvalues := nv }) := by
  obtain ⟨nv, hcl, line, hlm, hlc⟩ := createList_str F
    { st with lvalues := previousCode F st ++
      [F.indentL startStr (st.args.level.getD 0) (minOrPfx F st.prevCode (previousCode F st) 0)] }
    false
    { st.args with
        separator := str " "
        pfx := some (minOrPfx F st.prevCode (previousCode F st ++
          [F.indentL startStr (st.args.level.getD 0) (minOrPfx F st.prevCode (previousCode F st) 0)]) 0) }
    hind hne hstr
  exact ⟨nv, by simp [createWithListOnSecondLine, hcl, Except.bind, Bind.bind]⟩

/-- **C9**: for a non-empty, string-only item sequence and a formatter
whose `indent` output keeps its input, `found_solution` raises nothing:
it runs the four layout trials in the fixed order (all items on the
opening line; first item on the opening line; the same two with the
list body opened on a second line), committing the first whose list
lines all fit `max_length`, and otherwise commits the last resort
`create_with_list_on_second_line`, which still reports success. -/
theorem c9_found_solution_order (F : LFormatter) (st : LState)
    (hne : st.items ≠ [])
    (hstr : ∀ i ∈ st.items, i.isLeft = true)
    (hind : ∀ s l p, containsStr (F.indentL s l p) s = true) :
    ∃ b1 v1 b2 v2 b3 v3 b4 v4 v5,
      canCreateAllOn F st false = Except.ok (b1, { st with lvalues := v1 }) ∧
      canCreateWithFirstOn F { st with lvalues := v1 } false
        = Except.ok (b2, { st with lvalues := v2 }) ∧
      canCreateAllOn F { st with lvalues := v2 } true
        = Except.ok (b3, { st with lvalues := v3 }) ∧
      canCreateWithFirstOn F { st with lvalues := v3 } true
        = Except.ok (b4, { st with lvalues := v4 }) ∧
      createWithListOnSecondLine F { st with lvalues := v4 }
        = Except.ok (true, { st with lvalues := v5 }) ∧
      foundSolution F st = Except.ok (true, { st with lvalues :=
        if b1 then v1 else if b2 then v2 else if b3 then v3 else if b4 then v4 else v5 }) := by
  obtain ⟨b1, v1, h1⟩ := canCreateAllOn_str F st false hind hne hstr
  obtain ⟨b2, v2, h2⟩ := canCreateWithFirstOn_str F { st with lvalues := v1 } false hind hne hstr
  obtain ⟨b3, v3, h3⟩ := canCreateAllOn_str F { st with lvalues := v2 } true hind hne hstr
  obtain ⟨b4, v4, h4⟩ := canCreateWithFirstOn_str F { st with lvalues := v3 } true hind hne hstr
  obtain ⟨v5, h5⟩ := createWithListOnSecondLine_str F { st with lvalues := v4 } hind hne hstr
  refine ⟨b1, v1, b2, v2, b3, v3, b4, v4, v5, h1, h2, h3, h4, h5, ?_⟩
  unfold foundSolution
  rw [h1]
  cases b1 <;> cases b2 <;> cases b3 <;> cases b4 <;>
    simp [h2, h3, h4, h5, Except.bind, Bind.bind]

/-- Two strings are substrings of their concatenation. -/
theorem containsStr_append_self (t s : Str) : containsStr (t ++ s) s = true :=
  containsStr_infix_iff.mpr ⟨t, [], by simp⟩

/-- **C9 (counterexample)**: `found_solution` does not always succeed.
With a `max_length`-5 formatter and an 8-character opening line, an
empty item sequence raises `IndexError` (reading `self.items[0]` in
the second trial), and a single nested-list item whose strings never
fit raises `IndexError` (reading `lines[-1]` of the empty accumulated
line list in `_get_prefix`). -/
theorem c9_counterexample :
    foundSolution (mkLF fmtMax5 100) c9StEmpty = Except.error PyErr.indexError ∧
    foundSolution (mkLF fmtMax5 100) c9StList = Except.error PyErr.indexError :=
  ⟨rfl, rfl⟩

/-- The amended C9 statement holds at a concrete formatter and state. -/
theorem c9_found_solution_order_witness :
    c9StStr.items ≠ [] ∧
    (∃ b1 v1 b2 v2 b3 v3 b4 v4 v5,
      canCreateAllOn (mkLF fmtMax5 100) c9StStr false
        = Except.ok (b1, { c9StStr with lvalues := v1 }) ∧
      canCreateWithFirstOn (mkLF fmtMax5 100) { c9StStr with lvalues := v1 } false
        = Except.ok (b2, { c9StStr with lvalues := v2 }) ∧
      canCreateAllOn (mkLF fmtMax5 100) { c9StStr with lvalues := v2 } true
        = Except.ok (b3, { c9StStr with lvalues := v3 }) ∧
      canCreateWithFirstOn (mkLF fmtMax5 100) { c9StStr with lvalues := v3 } true
        = Except.ok (b4, { c9StStr with lvalues := v4 }) ∧
      createWithListOnSecondLine (mkLF fmtMax5 100) { c9StStr with lvalues := v4 }
        = Except.ok (true, { c9StStr with lvalues := v5 }) ∧
      foundSolution (mkLF fmtMax5 100) c9StStr = Except.ok (true, { c9StStr with lvalues :=
        if b1 then v1 else if b2 then v2 else if b3 then v3 else if b4 then v4 else v5 })) :=
  ⟨by decide, c9_found_solution_order (mkLF fmtMax5 100) c9StStr (by decide)
    (by intro i hi; rcases List.mem_singleton.mp hi with rfl; rfl)
    (fun s l p => containsStr_append_self (fmtMax5.indentFor l p) s)⟩
